import Mathlib

/-!
Verification development for the magical-athlete-simulator repository.

Two engine variants exist in the sources and are embedded separately:

* `Proto` — the self-contained prototype engine in
  `src/magical-athlete-simulator/game.py` (events, priority queue,
  pub/sub registry, abilities, movement, finish handling).
* `Pkg` — the modular package `magical_athlete_simulator`
  (`engine/movement.py`, `engine/state.py`) together with the
  multi-level loop detector `engine/loop_detection.py`.

Python peculiarities are modelled as follows: machine integers are `Int`
(Python ints are unbounded, so no wrap-around is needed); `hash` of a
tuple/frozenset is modelled by the canonical value being hashed (equal
canonical values give equal Python hashes; hash collisions are not
modelled); iteration over a Python `set` of ability names is modelled by
a deterministic list in source order; the seeded PRNG `random.Random` is
modelled by an abstract stream `Nat → Nat` consumed one draw at a time
(a fixed seed determines a fixed stream).
-/

namespace MagicalAthlete

/-- The per-racer tuple hashed by `GameState.get_state_hash`
(`engine/state.py`): `(idx, position, tripped, finish_position,
eliminated, victory_points, frozenset(abilities), frozenset(modifier
names))`, with the frozensets as `Finset`s. -/
structure RacerHashData where
  idx : Nat
  position : Int
  tripped : Bool
  finishPosition : Option Nat
  eliminated : Bool
  victoryPoints : Nat
  abilities : Finset String
  modifierNames : Finset String
  deriving DecidableEq

/-- The canonical value hashed by `GameState.get_state_hash`: the racer
tuple sequence and the frozenset of `(tile, frozenset(names))` pairs.
Python's `hash` of equal canonical values is equal, so the hash is
modelled by the canonical value itself. -/
structure StateHashValue where
  racerData : List RacerHashData
  boardData : Finset (Nat × Finset String)
  deriving DecidableEq

namespace Proto

/-- `RacerName` literal type from `game.py`. -/
inductive RacerName where
  | Centaur | BigBaby | Scoocher | Banana | Copycat | Gunk | PartyAnimal
  deriving DecidableEq, Repr

/-- `AbilityName` literal type from `game.py`. -/
inductive AbilityName where
  | Trample | BigBabyPush | BananaTrip | ScoochStep | CopyLead | Slime
  | PartyPull | PartyBoost
  deriving DecidableEq, Repr

/-- `TRIP_SPACES = {4, 10, 18}` from `game.py`, as a membership test. -/
def TRIP_SPACES (pos : Int) : Bool :=
  pos == 4 || pos == 10 || pos == 18

/-- `FINISH_SPACE = 20` from `game.py`. -/
def FINISH_SPACE : Int := 20

/-- `WIN_VP = 5` from `game.py`. -/
def WIN_VP : Nat := 5

/-- `RacerState` dataclass from `game.py`.  The Python `set[AbilityName]`
field is modelled as a deterministically ordered list. -/
structure RacerState where
  idx : Nat
  name : RacerName
  position : Int
  tripped : Bool
  finished : Bool
  victoryPoints : Nat
  abilities : List AbilityName
  deriving DecidableEq, Repr

/-- `GameState` dataclass from `game.py`. -/
structure GameState where
  racers : List RacerState
  currentRacerIdx : Nat
  finishedOrder : List Nat
  deriving DecidableEq, Repr

/-- The closed set of event dataclasses from `game.py`. -/
inductive GameEvent where
  | turnStart (racerIdx : Nat)
  | rollAndMainMove (racerIdx : Nat)
  | cmdMove (racerIdx : Nat) (distance : Int) (isMainMove : Bool)
      (sourceRacerIdx : Option Nat) (sourceAbility : Option AbilityName)
  | passing (moverIdx : Nat) (tileIdx : Int)
  | landing (moverIdx : Nat) (tileIdx : Int)
  | abilityTriggered (sourceRacerIdx : Nat) (abilityId : AbilityName)
  deriving DecidableEq, Repr

/-- The event's class (`type(event)` in Python), used as the pub/sub
subscription key and in loop-detection signatures. -/
inductive EventTag where
  | turnStart | rollAndMainMove | cmdMove | passing | landing
  | abilityTriggered
  deriving DecidableEq, Repr

/-- `type(event)` of a `GameEvent`. -/
def GameEvent.tag : GameEvent → EventTag
  | .turnStart _ => .turnStart
  | .rollAndMainMove _ => .rollAndMainMove
  | .cmdMove _ _ _ _ _ => .cmdMove
  | .passing _ _ => .passing
  | .landing _ _ => .landing
  | .abilityTriggered _ _ => .abilityTriggered

/-- `ScheduledEvent` dataclass from `game.py`: heap items ordered by
`(phase, turn_distance, serial)`; the event field is not compared. -/
structure ScheduledEvent where
  phase : Nat
  turnDistance : Nat
  serial : Nat
  event : GameEvent
  deriving DecidableEq, Repr

/-- `Phase.SYSTEM = 0` from `game.py`. -/
def Phase.SYSTEM : Nat := 0

/-- `Phase.BOARD = 10` from `game.py`. -/
def Phase.BOARD : Nat := 10

/-- `Phase.ABILITY = 20` from `game.py`. -/
def Phase.ABILITY : Nat := 20

/-- `Phase.MOVE = 30` from `game.py`. -/
def Phase.MOVE : Nat := 30

/-- `Phase.CLEANUP = 100` from `game.py`. -/
def Phase.CLEANUP : Nat := 100

/-- The strict-weak-order key of a `ScheduledEvent` (`@dataclass(order=True)`
with `event` excluded from comparison). -/
def schedKey (s : ScheduledEvent) : Nat × Nat × Nat :=
  (s.phase, s.turnDistance, s.serial)

/-- Lexicographic `≤` on scheduling keys, as Python tuple comparison. -/
def keyLe (a b : Nat × Nat × Nat) : Bool :=
  a.1 < b.1 || (a.1 == b.1 && (a.2.1 < b.2.1 ||
    (a.2.1 == b.2.1 && a.2.2 ≤ b.2.2)))

/-- A dispatch-loop observation: the popped scheduled event, whether loop
detection skipped it, and `hash_state()` after the dispatch.  (The Python
engine exposes this stream through its logger; the embedding records it
explicitly so that the determinism and ordering claims can be stated.) -/
structure TraceEntry where
  sched : ScheduledEvent
  skipped : Bool
  hashAfter : List Int × List Bool
  deriving DecidableEq, Repr

/-- `GameEngine` dataclass from `game.py`.  `subscribers` flattens the
Python `dict[type, list[Subscriber]]`: per-event-type sublists keep their
order under `filter`.  A callback is identified by the ability that
registered it.  `rngIdx` is the number of PRNG draws consumed so far. -/
structure GameEngine where
  state : GameState
  queue : List ScheduledEvent
  subscribers : List (EventTag × AbilityName × Nat)
  modifiers : List (AbilityName × Nat)
  serial : Nat
  raceOver : Bool
  seenSignatures : List (EventTag × List Int × List Bool)
  rngIdx : Nat
  trace : List TraceEntry
  deriving DecidableEq, Repr

/-- Total stand-in for Python's `IndexError` on `racers[idx]`: an
out-of-range lookup yields an inert, already-finished racer, which every
handler drops immediately.  All indices arising in actual runs are in
range. -/
def dummyRacer : RacerState :=
  { idx := 0, name := .Centaur, position := 0, tripped := false,
    finished := true, victoryPoints := 0, abilities := [] }

/-- `GameEngine.get_racer`. -/
def getRacer (e : GameEngine) (idx : Nat) : RacerState :=
  e.state.racers.getD idx dummyRacer

/-- In-place mutation of `self.state.racers[idx]` through an update map. -/
def setRacer (e : GameEngine) (idx : Nat) (f : RacerState → RacerState) :
    GameEngine :=
  { e with state :=
      { e.state with racers := e.state.racers.set idx (f (getRacer e idx)) } }

/-- `GameEngine.push_event`: bump the serial, compute the reactor's turn
distance `(reactor_idx - current) % n` (0 when `reactor_idx is None` or no
racers), and enqueue. -/
def pushEvent (e : GameEngine) (ev : GameEvent) (phase : Nat)
    (reactorIdx : Option Nat) : GameEngine :=
  let serial := e.serial + 1
  let n := e.state.racers.length
  let dist : Nat :=
    match reactorIdx with
    | none => 0
    | some r =>
        if n = 0 then 0
        else (((r : Int) - (e.state.currentRacerIdx : Int)) % (n : Int)).toNat
  { e with serial := serial,
           queue := e.queue ++ [⟨phase, dist, serial, ev⟩] }

/-- `GameEngine.emit_ability_trigger`. -/
def emitAbilityTrigger (e : GameEngine) (sourceIdx : Nat)
    (ability : AbilityName) : GameEngine :=
  if (getRacer e sourceIdx).finished then e
  else pushEvent e (.abilityTriggered sourceIdx ability) Phase.ABILITY
    (some sourceIdx)

/-- The `triggers` class attribute of each `Ability` subclass in `game.py`
(`Slime` and `PartyBoost` are `Modifier` classes and subscribe to nothing). -/
def abilityTriggers : AbilityName → List EventTag
  | .Trample => [.passing]
  | .BigBabyPush => [.landing]
  | .BananaTrip => [.passing]
  | .ScoochStep => [.abilityTriggered]
  | .CopyLead => [.turnStart]
  | .PartyPull => [.turnStart]
  | .Slime => []
  | .PartyBoost => []

/-- Membership in `ABILITY_CLASSES` from `game.py`. -/
def isAbilityClass : AbilityName → Bool
  | .Trample | .BigBabyPush | .BananaTrip | .ScoochStep | .CopyLead
  | .PartyPull => true
  | .Slime | .PartyBoost => false

/-- Membership in `MODIFIER_CLASSES` from `game.py`. -/
def isModifierClass : AbilityName → Bool
  | .Slime | .PartyBoost => true
  | _ => false

/-- `RACER_ABILITIES` from `game.py`, with each Python set listed in its
source order. -/
def racerAbilities : RacerName → List AbilityName
  | .Centaur => [.Trample]
  | .BigBaby => [.BigBabyPush]
  | .Scoocher => [.ScoochStep]
  | .Banana => [.BananaTrip]
  | .Copycat => [.CopyLead]
  | .Gunk => [.Slime]
  | .PartyAnimal => [.PartyPull, .PartyBoost]

/-- `Ability.register`: subscribe the ability's wrapped handler for each
event type in its `triggers`. -/
def registerAbility (e : GameEngine) (ownerIdx : Nat) (a : AbilityName) :
    GameEngine :=
  (abilityTriggers a).foldl
    (fun acc tag => { acc with subscribers := acc.subscribers ++ [(tag, a, ownerIdx)] })
    e

/-- Registration of one ability name for one racer, shared by
`build_engine` and `update_racer_abilities`: consult `ABILITY_CLASSES`,
then `MODIFIER_CLASSES`. -/
def registerName (e : GameEngine) (ownerIdx : Nat) (a : AbilityName) :
    GameEngine :=
  let e1 := if isAbilityClass a then registerAbility e ownerIdx a else e
  if isModifierClass a then
    { e1 with modifiers := e1.modifiers ++ [(a, ownerIdx)] }
  else e1

/-- `GameEngine.update_racer_abilities` (used by Copycat): overwrite the
racer's ability set, drop all of its subscriptions and modifiers, then
re-register the new abilities. -/
def updateRacerAbilities (e : GameEngine) (racerIdx : Nat)
    (newAbilities : List AbilityName) : GameEngine :=
  let e1 := setRacer e racerIdx (fun r => { r with abilities := newAbilities })
  let e2 := { e1 with
    subscribers := e1.subscribers.filter (fun s => s.2.2 ≠ racerIdx),
    modifiers := e1.modifiers.filter (fun m => m.2 ≠ racerIdx) }
  newAbilities.foldl (fun acc a => registerName acc racerIdx a) e2

/-- One PRNG draw for `rng.randint(1, 6)`. -/
def rollDie (dice : Nat → Nat) (e : GameEngine) : Nat × GameEngine :=
  (1 + dice e.rngIdx % 6, { e with rngIdx := e.rngIdx + 1 })

/-- One PRNG draw for `rng.choice(leaders)` (callers guard non-emptiness). -/
def rngChoice (dice : Nat → Nat) (e : GameEngine) (l : List RacerState) :
    RacerState × GameEngine :=
  (l.getD (dice e.rngIdx % l.length) dummyRacer, { e with rngIdx := e.rngIdx + 1 })

/-- `Ability.execute` of each concrete ability subclass in `game.py`.
The match arms follow the Python classes line by line. -/
def executeAbility (dice : Nat → Nat) (a : AbilityName) (event : GameEvent)
    (ownerIdx : Nat) (e : GameEngine) : GameEngine :=
  match a, event with
  | .Trample, .passing moverIdx tileIdx =>
      if moverIdx ≠ ownerIdx then e
      else
        let victims := e.state.racers.filter
          (fun r => r.position == tileIdx && !r.finished && r.idx ≠ ownerIdx)
        if victims.isEmpty then e
        else victims.foldl (fun acc v =>
          pushEvent acc
            (.cmdMove v.idx (-2) false (some ownerIdx) (some .Trample))
            Phase.MOVE (some ownerIdx)) e
  | .BigBabyPush, .landing moverIdx tileIdx =>
      let owner := getRacer e ownerIdx
      let victim := getRacer e moverIdx
      if moverIdx = ownerIdx || victim.finished then e
      else if owner.position ≠ tileIdx then e
      else pushEvent e
        (.cmdMove moverIdx (-1) false (some ownerIdx) (some .BigBabyPush))
        Phase.MOVE (some ownerIdx)
  | .BananaTrip, .passing moverIdx tileIdx =>
      if moverIdx = ownerIdx then e
      else if (getRacer e ownerIdx).position ≠ tileIdx then e
      else if (getRacer e moverIdx).finished then e
      else setRacer e moverIdx (fun r => { r with tripped := true })
  | .ScoochStep, .abilityTriggered sourceRacerIdx _ =>
      if sourceRacerIdx = ownerIdx then e
      else pushEvent e
        (.cmdMove ownerIdx 1 false (some ownerIdx) (some .ScoochStep))
        Phase.MOVE (some ownerIdx)
  | .CopyLead, .turnStart racerIdx =>
      if racerIdx ≠ ownerIdx then e
      else
        let active := e.state.racers.filter
          (fun r => !r.finished && r.idx ≠ ownerIdx)
        if active.isEmpty then e
        else
          let maxPos := (active.map (fun r => r.position)).foldl max
            ((active.headD dummyRacer).position)
          let leaders := active.filter (fun r => r.position == maxPos)
          let (leader, e1) := rngChoice dice e leaders
          let base := racerAbilities leader.name
          let newAbilities :=
            if base.contains .CopyLead then base else base ++ [.CopyLead]
          updateRacerAbilities e1 ownerIdx newAbilities
  | .PartyPull, .turnStart racerIdx =>
      if racerIdx ≠ ownerIdx then e
      else
        let party := getRacer e ownerIdx
        if party.finished then e
        else e.state.racers.foldl (fun acc r =>
          if r.idx = ownerIdx || r.finished then acc
          else if r.position < party.position then
            pushEvent acc
              (.cmdMove r.idx 1 false (some ownerIdx) (some .PartyPull))
              Phase.MOVE (some ownerIdx)
          else if r.position > party.position then
            pushEvent acc
              (.cmdMove r.idx (-1) false (some ownerIdx) (some .PartyPull))
              Phase.MOVE (some ownerIdx)
          else acc) e
  | _, _ => e

/-- `Ability._wrapped_handler`: run the ability logic, then always emit
the ability trigger. -/
def wrappedHandler (dice : Nat → Nat) (a : AbilityName) (event : GameEvent)
    (ownerIdx : Nat) (e : GameEngine) : GameEngine :=
  emitAbilityTrigger (executeAbility dice a event ownerIdx e) ownerIdx a

/-- Sort key of `GameEngine.publish_to_subscribers`:
`(owner_idx - current) % len(racers)`. -/
def subSortKey (e : GameEngine) (s : EventTag × AbilityName × Nat) : Nat :=
  let n := e.state.racers.length
  if n = 0 then 0
  else (((s.2.2 : Int) - (e.state.currentRacerIdx : Int)) % (n : Int)).toNat

/-- `GameEngine.publish_to_subscribers`: take the subscriber list of the
event's type, stable-sort it by turn distance (Python `sorted`), then
invoke each wrapped handler in order, skipping owners that are finished
at call time. -/
def publishToSubscribers (dice : Nat → Nat) (event : GameEvent)
    (e : GameEngine) : GameEngine :=
  let subs := e.subscribers.filter (fun s => s.1 == event.tag)
  let sortedSubs :=
    subs.insertionSort (fun a b => subSortKey e a ≤ subSortKey e b)
  sortedSubs.foldl (fun acc s =>
    if (getRacer acc s.2.2).finished then acc
    else wrappedHandler dice s.2.1 event s.2.2 acc) e

/-- `Modifier.modify` of `ModifierSlime` and `ModifierPartyBoost`: thread
the engine and the `MoveDistanceQuery.modifiers` delta list. -/
def modifierModify (m : AbilityName) (ownerIdx : Nat) (queryRacerIdx : Nat)
    (acc : GameEngine × List Int) : GameEngine × List Int :=
  match m with
  | .Slime =>
      if queryRacerIdx = ownerIdx then acc
      else (emitAbilityTrigger acc.1 ownerIdx .Slime, acc.2 ++ [-1])
  | .PartyBoost =>
      if queryRacerIdx ≠ ownerIdx then acc
      else
        let party := getRacer acc.1 ownerIdx
        let sameTile := acc.1.state.racers.filter
          (fun r => r.idx ≠ ownerIdx && !r.finished &&
            r.position == party.position)
        let bonus := sameTile.length
        if bonus ≠ 0 then
          (emitAbilityTrigger acc.1 ownerIdx .PartyBoost, acc.2 ++ [(bonus : Int)])
        else acc
  | _ => acc

/-- The loop body of `GameEngine.apply_move_modifiers`: skip finished
owners, otherwise let the modifier mutate the engine and append its
deltas. -/
def moveModifierStep (targetIdx : Nat) (acc : GameEngine × List Int)
    (m : AbilityName × Nat) : GameEngine × List Int :=
  if (getRacer acc.1 m.2).finished then acc
  else modifierModify m.1 m.2 targetIdx acc

/-- `GameEngine.apply_move_modifiers` without the final `max`: iterate the
registered `(modifier, owner_idx)` pairs in list (registration) order;
return the mutated engine and the accumulated `query.modifiers` deltas. -/
def applyMoveModifiers (e : GameEngine) (targetIdx : Nat) :
    GameEngine × List Int :=
  e.modifiers.foldl (moveModifierStep targetIdx) (e, [])

/-- `MoveDistanceQuery.final_value`: `max(0, base_roll + sum(modifiers))`. -/
def finalValue (baseRoll : Nat) (modifierDeltas : List Int) : Int :=
  max 0 ((baseRoll : Int) + modifierDeltas.sum)

/-- `GameEngine.on_roll_and_main_move`. -/
def onRollAndMainMove (dice : Nat → Nat) (racerIdx : Nat) (e : GameEngine) :
    GameEngine :=
  if (getRacer e racerIdx).finished then e
  else
    let (roll, e1) := rollDie dice e
    let (e2, deltas) := applyMoveModifiers e1 racerIdx
    let distance := finalValue roll deltas
    if distance ≠ 0 then
      pushEvent e2 (.cmdMove racerIdx distance true none none)
        Phase.MOVE (some racerIdx)
    else e2

/-- The intermediate tiles visited by `on_cmd_move`'s passing loop:
`start + direction*i` for `i in range(1, steps)`, breaking at the first
tile beyond `FINISH_SPACE`. -/
def passingTiles (start direction : Int) (steps : Nat) : List Int :=
  ((List.range' 1 (steps - 1)).map (fun i => start + direction * (i : Int))).takeWhile
    (fun t => !(t > FINISH_SPACE))

/-- `GameEngine.on_cmd_move`. -/
def onCmdMove (evt : GameEvent) (e : GameEngine) : GameEngine :=
  match evt with
  | .cmdMove racerIdx dist _ _ _ =>
      if (getRacer e racerIdx).finished then e
      else
        let start := (getRacer e racerIdx).position
        if dist = 0 then
          pushEvent e (.landing racerIdx start) Phase.SYSTEM (some racerIdx)
        else
          let direction : Int := if dist > 0 then 1 else -1
          let steps := dist.natAbs
          let e1 := (passingTiles start direction steps).foldl
            (fun acc t =>
              pushEvent acc (.passing racerIdx t) Phase.SYSTEM (some racerIdx))
            e
          pushEvent e1 (.landing racerIdx (start + dist)) Phase.SYSTEM
            (some racerIdx)
  | _ => e

/-- `GameEngine.handle_finish`. -/
def handleFinish (e : GameEngine) (racerIdx : Nat) : GameEngine :=
  if (getRacer e racerIdx).finished then e
  else
    let e1 := setRacer e racerIdx
      (fun r => { r with finished := true, position := FINISH_SPACE + 1 })
    let e2 := { e1 with state :=
      { e1.state with finishedOrder := e1.state.finishedOrder ++ [racerIdx] } }
    let order := e2.state.finishedOrder.length
    let e3 :=
      if order = 1 then
        setRacer e2 racerIdx
          (fun r => { r with victoryPoints := r.victoryPoints + WIN_VP })
      else e2
    if order ≥ 2 then { e3 with raceOver := true, queue := [] } else e3

/-- `GameEngine.on_landing`: commit the position, finish if strictly past
`FINISH_SPACE`, trip on a trip tile, then publish to landing subscribers. -/
def onLanding (dice : Nat → Nat) (moverIdx : Nat) (tileIdx : Int)
    (e : GameEngine) : GameEngine :=
  if (getRacer e moverIdx).finished then e
  else
    let e1 := setRacer e moverIdx (fun r => { r with position := tileIdx })
    if tileIdx > FINISH_SPACE then handleFinish e1 (getRacer e moverIdx).idx
    else
      let e2 :=
        if TRIP_SPACES tileIdx then
          setRacer e1 moverIdx (fun r => { r with tripped := true })
        else e1
      publishToSubscribers dice (.landing moverIdx tileIdx) e2

/-- `GameEngine.on_turn_start`. -/
def onTurnStart (dice : Nat → Nat) (racerIdx : Nat) (e : GameEngine) :
    GameEngine :=
  let racer := getRacer e racerIdx
  if racer.finished then e
  else if racer.tripped then
    setRacer e racerIdx (fun r => { r with tripped := false })
  else
    let e1 := publishToSubscribers dice (.turnStart racerIdx) e
    pushEvent e1 (.rollAndMainMove racerIdx) Phase.SYSTEM (some racerIdx)

/-- `GameEngine.handle_event`. -/
def handleEvent (dice : Nat → Nat) (event : GameEvent) (e : GameEngine) :
    GameEngine :=
  match event with
  | .turnStart racerIdx => onTurnStart dice racerIdx e
  | .rollAndMainMove racerIdx => onRollAndMainMove dice racerIdx e
  | .cmdMove _ _ _ _ _ => onCmdMove event e
  | .passing _ _ => publishToSubscribers dice event e
  | .landing moverIdx tileIdx => onLanding dice moverIdx tileIdx e
  | .abilityTriggered _ _ => publishToSubscribers dice event e

/-- `GameEngine.hash_state`: the canonical value
`(positions tuple, tripped tuple)` whose Python hash is taken. -/
def hashState (e : GameEngine) : List Int × List Bool :=
  (e.state.racers.map (fun r => r.position),
   e.state.racers.map (fun r => r.tripped))

/-- `GameEngine.is_loop`: membership of `(type(event), hash_state())` in
`seen_signatures`, recording the signature when new. -/
def isLoopCheck (e : GameEngine) (event : GameEvent) : Bool × GameEngine :=
  let sig := (event.tag, (hashState e).1, (hashState e).2)
  if sig ∈ e.seenSignatures then (true, e)
  else (false, { e with seenSignatures := e.seenSignatures ++ [sig] })

/-- `heapq.heappop`: remove the least element under the lexicographic
`(phase, turn_distance, serial)` order (serials are unique, so the
minimum is unique and heap internals are irrelevant). -/
def popMin : List ScheduledEvent → Option (ScheduledEvent × List ScheduledEvent)
  | [] => none
  | x :: xs =>
      match popMin xs with
      | none => some (x, [])
      | some (m, rest) =>
          if keyLe (schedKey x) (schedKey m) then some (x, xs)
          else some (m, x :: rest)

/-- `GameEngine.process_events_for_turn`, fuelled: pop, loop-check, and
either skip (recording a skipped trace entry, the Python WARN log) or
dispatch.  Fuel only caps the recursion; each Python iteration consumes
exactly one unit. -/
def processEventsForTurn (dice : Nat → Nat) : Nat → GameEngine → GameEngine
  | 0, e => e
  | fuel + 1, e =>
      if e.raceOver then e
      else
        match popMin e.queue with
        | none => e
        | some (sched, rest) =>
            let e1 := { e with queue := rest }
            let (skip, e2) := isLoopCheck e1 sched.event
            if skip then
              processEventsForTurn dice fuel
                { e2 with trace := e2.trace ++ [⟨sched, true, hashState e2⟩] }
            else
              let e3 := handleEvent dice sched.event e2
              processEventsForTurn dice fuel
                { e3 with trace := e3.trace ++ [⟨sched, false, hashState e3⟩] }

/-- `GameEngine.start_turn`: clear the loop signatures and schedule
`TurnStartEvent` for the current racer. -/
def startTurn (e : GameEngine) : GameEngine :=
  let e1 := { e with seenSignatures := [] }
  pushEvent e1 (.turnStart e1.state.currentRacerIdx) Phase.SYSTEM
    (some e1.state.currentRacerIdx)

/-- The `for _ in range(n)` body of `GameEngine.advance_turn`. -/
def advanceLoop : Nat → GameEngine → GameEngine
  | 0, e => e
  | k + 1, e =>
      let n := e.state.racers.length
      let idx := (e.state.currentRacerIdx + 1) % n
      let e1 := { e with state := { e.state with currentRacerIdx := idx } }
      if !(getRacer e1 idx).finished then e1 else advanceLoop k e1

/-- `GameEngine.advance_turn`. -/
def advanceTurn (e : GameEngine) : GameEngine :=
  if e.raceOver then e else advanceLoop e.state.racers.length e

/-- One iteration of the `run_race` loop body. -/
def runTurn (dice : Nat → Nat) (eventFuel : Nat) (e : GameEngine) :
    GameEngine :=
  advanceTurn (processEventsForTurn dice eventFuel (startTurn e))

/-- `GameEngine.run_race`, fuelled in the number of turns: loop the turn
body while `race_over` is false. -/
def runRace (dice : Nat → Nat) : Nat → Nat → GameEngine → GameEngine
  | 0, _, e => e
  | turnFuel + 1, eventFuel, e =>
      if e.raceOver then e
      else runRace dice turnFuel eventFuel (runTurn dice eventFuel e)

/-- `build_engine` from `game.py`: construct the racers with their default
ability sets, then register every ability/modifier class. -/
def buildEngine (roster : List RacerName) : GameEngine :=
  let racers := roster.enum.map (fun p =>
    { idx := p.1, name := p.2, position := 0, tripped := false,
      finished := false, victoryPoints := 0,
      abilities := racerAbilities p.2 : RacerState })
  let engine : GameEngine :=
    { state := { racers := racers, currentRacerIdx := 0, finishedOrder := [] },
      queue := [], subscribers := [], modifiers := [], serial := 0,
      raceOver := false, seenSignatures := [], rngIdx := 0, trace := [] }
  racers.foldl (fun acc r =>
    r.abilities.foldl (fun acc2 a => registerName acc2 r.idx a) acc) engine

end Proto

namespace Pkg

/-- `EventTriggerMode` (`"never" | "after_resolution"`) from
`core/events.py`. -/
inductive TriggerMode where
  | never | afterResolution
  deriving DecidableEq, Repr

/-- A racer modifier instance (`core/modifier_base.py`): a stable name and
an optional owner; equality is name + owner. -/
structure ModifierInst where
  name : String
  ownerIdx : Option Nat
  deriving DecidableEq, Repr

/-- `RacerState` from `engine/state.py`.  The `active_abilities` dict is
modelled by its insertion-ordered key list (ability instances carry no
state read by the embedded code). -/
structure RacerState where
  idx : Nat
  name : String
  position : Int
  victoryPoints : Nat
  tripped : Bool
  rerollCount : Nat
  finishPosition : Option Nat
  eliminated : Bool
  modifiers : List ModifierInst
  activeAbilities : List String
  deriving DecidableEq, Repr

/-- `RacerState.finished` property. -/
def RacerState.finished (r : RacerState) : Bool :=
  r.finishPosition.isSome

/-- `RacerState.active` property: `not finished and not eliminated`. -/
def RacerState.active (r : RacerState) : Bool :=
  !r.finished && !r.eliminated

/-- `RollState` from `engine/state.py`. -/
structure RollState where
  serialId : Nat
  baseValue : Int
  finalValue : Int
  deriving DecidableEq, Repr

/-- Modelled from the spec: the board of `engine/board.py` (absent from
the sources).  `resolvePos` abstracts `Board.resolve_position`, the
fixed-point walk of `on_approach` hooks over the intended tile (§3, §4.4
step 4); `dynamicModifiers` is the tile-indexed dynamic space-modifier
map read by `get_state_hash`; `finishTile` is the finish index. -/
structure Board where
  length : Nat
  finishTile : Int
  dynamicModifiers : List (Nat × List ModifierInst)
  resolvePos : Int → Nat → Int

/-- `GameState` from `engine/state.py`. -/
structure GameState where
  racers : List RacerState
  currentRacerIdx : Nat
  rollState : RollState
  board : Board

/-- `GameState.get_state_hash` from `engine/state.py`, as the canonical
hashed value. -/
def GameState.getStateHash (s : GameState) : StateHashValue :=
  { racerData := s.racers.map (fun r =>
      { idx := r.idx, position := r.position, tripped := r.tripped,
        finishPosition := r.finishPosition, eliminated := r.eliminated,
        victoryPoints := r.victoryPoints,
        abilities := r.activeAbilities.toFinset,
        modifierNames := (r.modifiers.map (fun m => m.name)).toFinset }),
    boardData := ((s.board.dynamicModifiers.map
      (fun p => (p.1, (p.2.map (fun m => m.name)).toFinset))).toFinset) }

/-- `MoveCmdEvent` from `core/events.py` (the fields read by
`handle_move_cmd`). -/
structure MoveCmdEvent where
  targetRacerIdx : Nat
  distance : Int
  source : String
  phase : Nat
  emitAbilityTriggered : TriggerMode
  responsibleRacerIdx : Option Nat
  deriving DecidableEq, Repr

/-- `WarpCmdEvent` from `core/events.py`. -/
structure WarpCmdEvent where
  targetRacerIdx : Nat
  targetTile : Int
  source : String
  phase : Nat
  emitAbilityTriggered : TriggerMode
  responsibleRacerIdx : Option Nat
  deriving DecidableEq, Repr

/-- `SimultaneousWarpCmdEvent` from `core/events.py`. -/
structure SimultaneousWarpCmdEvent where
  warps : List (Nat × Int)
  source : String
  phase : Nat
  emitAbilityTriggered : TriggerMode
  responsibleRacerIdx : Option Nat
  deriving DecidableEq, Repr

/-- `TripCmdEvent` from `core/events.py`. -/
structure TripCmdEvent where
  targetRacerIdx : Nat
  source : String
  phase : Nat
  emitAbilityTriggered : TriggerMode
  responsibleRacerIdx : Option Nat
  deriving DecidableEq, Repr

/-- Observable effects of the movement handlers.  Modelled from the spec:
the engine methods `publish_to_subscribers` and `push_event` and the
board's `trigger_on_land` live in files absent from the sources
(`engine/game_engine.py`, `engine/board.py`); per the spec they hand the
event to subscribers/the queue and may schedule further events, so the
embedding records each such call as an action.  `onLand` records a
snapshot of all racer positions at the moment the landing hooks run. -/
inductive Action where
  | preMove (target : Nat) (startTile distance : Int)
  | postMove (target : Nat) (startTile endTile : Int)
  | preWarp (target : Nat) (startTile targetTile : Int)
  | postWarp (target : Nat) (startTile endTile : Int)
  | passingPush (responsible target : Nat) (tile : Int)
  | abilityTriggeredPush (source : String)
  | onLand (tile : Int) (racerIdx : Nat) (positions : List Int)
  | clampLog (resolved : Int)
  | tripLog (target : Nat)
  | warpLog (target : Nat) (endTile : Int)
  deriving DecidableEq, Repr

/-- `GameRules` (the flag read by `handle_move_cmd`). -/
structure Rules where
  count0MovesForAbilityTriggered : Bool
  deriving DecidableEq, Repr

/-- The engine surface used by `engine/movement.py`: the game state, the
rules, a race-over flag set by the finish check, and the recorded
action trace. -/
structure Engine where
  racers : List RacerState
  rules : Rules
  board : Board
  raceOver : Bool
  actions : List Action

/-- Inert out-of-range racer (Python would raise `IndexError`); it is
eliminated, hence inactive, so every handler drops it. -/
def dummyRacer : RacerState :=
  { idx := 0, name := "", position := 0, victoryPoints := 0, tripped := false,
    rerollCount := 0, finishPosition := none, eliminated := true,
    modifiers := [], activeAbilities := [] }

/-- `engine.get_racer`. -/
def getRacer (e : Engine) (idx : Nat) : RacerState :=
  e.racers.getD idx dummyRacer

/-- Record one action. -/
def record (e : Engine) (a : Action) : Engine :=
  { e with actions := e.actions ++ [a] }

/-- Set one racer's position. -/
def setPosition (e : Engine) (idx : Nat) (pos : Int) : Engine :=
  { e with racers := e.racers.set idx { getRacer e idx with position := pos } }

/-- Modelled from the spec: `engine.get_racers_at_position(tile, except)`
(§4.4 step 6 — "every active racer currently on that tile other than the
mover"). -/
def racersAtPosition (e : Engine) (tileIdx : Int) (exceptRacerIdx : Nat) :
    List RacerState :=
  e.racers.filter (fun r =>
    r.active && r.position == tileIdx && r.idx ≠ exceptRacerIdx)

/-- Modelled from the spec: `check_finish` from `engine/flow.py` (absent
from the sources), per §4.6 — after a position commit, if the racer's
position has reached the finish tile, assign the next 1-based ordinal as
`finish_position`; the race ends when the second finisher arrives.  The
racer's position is not changed. -/
def checkFinish (e : Engine) (idx : Nat) : Bool × Engine :=
  let r := getRacer e idx
  if r.position ≥ e.board.finishTile then
    let ordinal := (e.racers.filter (fun x => x.finished)).length + 1
    let e1 := { e with racers :=
      (e.racers.set idx { r with finishPosition := some ordinal }) }
    (true, if ordinal ≥ 2 then { e1 with raceOver := true } else e1)
  else (false, e)

/-- The `while current != end` passing loop of `handle_move_cmd`,
including its overshoot safety break.  Fuel bounds the walk; callers
supply enough for the loop to reach `end` or overshoot it. -/
def passingLoopTiles (fuel : Nat) (current endTile step : Int) : List Int :=
  match fuel with
  | 0 => []
  | f + 1 =>
      if current = endTile then []
      else
        current ::
          (let next := current + step
           if (step > 0 && next > endTile) || (step < 0 && next < endTile) then []
           else passingLoopTiles f next endTile step)

/-- `handle_move_cmd` from `engine/movement.py`. -/
def handleMoveCmd (e : Engine) (evt : MoveCmdEvent) : Engine :=
  let racer := getRacer e evt.targetRacerIdx
  if !racer.active then e
  else if evt.distance = 0 then e
  else
    let start := racer.position
    let distance := evt.distance
    let e1 := record e (.preMove evt.targetRacerIdx start distance)
    let intended := start + distance
    let resolved := e1.board.resolvePos intended evt.targetRacerIdx
    let clamped : Int × Engine :=
      if resolved < 0 then (0, record e1 (.clampLog resolved)) else (resolved, e1)
    let endTile := clamped.1
    let e2 := clamped.2
    if endTile = start then e2
    else
      let e3 :=
        if evt.emitAbilityTriggered = .afterResolution then
          record e2 (.abilityTriggeredPush evt.source)
        else e2
      let step : Int := if distance > 0 then 1 else -1
      let tiles :=
        passingLoopTiles ((endTile - start).natAbs + 2) (start + step) endTile step
      let e4 := tiles.foldl (fun acc t =>
        if 0 ≤ t ∧ t < (acc.board.length : Int) then
          (racersAtPosition acc t racer.idx).foldl
            (fun acc2 v => record acc2 (.passingPush racer.idx v.idx t)) acc
        else acc) e3
      let e5 := setPosition e4 evt.targetRacerIdx endTile
      let fin := checkFinish e5 evt.targetRacerIdx
      if fin.1 then fin.2
      else
        let e6 := record fin.2
          (.onLand endTile evt.targetRacerIdx
            (fin.2.racers.map (fun r => r.position)))
        record e6 (.postMove evt.targetRacerIdx start endTile)

/-- `_resolve_warp_destination` from `engine/movement.py`. -/
def resolveWarpDestination (e : Engine) (event : WarpCmdEvent) : Int × Engine :=
  let resolved := e.board.resolvePos event.targetTile event.targetRacerIdx
  if resolved < 0 then (0, record e (.clampLog resolved)) else (resolved, e)

/-- `_finalize_committed_warp` from `engine/movement.py`. -/
def finalizeCommittedWarp (e : Engine) (event : WarpCmdEvent)
    (startTile endTile : Int) : Engine :=
  let e1 := record e (.warpLog event.targetRacerIdx endTile)
  let e2 := setPosition e1 event.targetRacerIdx endTile
  let fin := checkFinish e2 event.targetRacerIdx
  if fin.1 then fin.2
  else
    let e3 := record fin.2
      (.onLand endTile event.targetRacerIdx
        (fin.2.racers.map (fun r => r.position)))
    record e3 (.postWarp event.targetRacerIdx startTile endTile)

/-- The preparation pass (step 0–2) of `handle_simultaneous_warp_cmd`:
gather `(transient event, start, resolved end)` for each valid warp,
publishing `PreWarpEvent` per attempted entry and dropping inactive,
same-tile, and bounce-back entries. -/
def gatherAux (evt : SimultaneousWarpCmdEvent) :
    Engine → List (Nat × Int) → Engine × List (WarpCmdEvent × Int × Int)
  | eng, [] => (eng, [])
  | eng, p :: rest =>
      let racer := getRacer eng p.1
      if !racer.active then gatherAux evt eng rest
      else
        let start := racer.position
        if start = p.2 then gatherAux evt eng rest
        else
          let singleWarpEvt : WarpCmdEvent :=
            { targetRacerIdx := p.1, targetTile := p.2, source := evt.source,
              phase := evt.phase, emitAbilityTriggered := .never,
              responsibleRacerIdx := evt.responsibleRacerIdx }
          let e1 := record eng (.preWarp p.1 start p.2)
          let res := resolveWarpDestination e1 singleWarpEvt
          if res.1 = start then gatherAux evt res.2 rest
          else
            let tail := gatherAux evt res.2 rest
            (tail.1, (singleWarpEvt, start, res.1) :: tail.2)

/-- The loop over `evt.warps`; the planned pairs come back in source
order. -/
def gatherPlannedWarps (e : Engine) (evt : SimultaneousWarpCmdEvent) :
    Engine × List (WarpCmdEvent × Int × Int) :=
  gatherAux evt e evt.warps

/-- `handle_simultaneous_warp_cmd` from `engine/movement.py`: plan, then
atomically commit all positions, then finalize (landing hooks and
`PostWarpEvent`) in the order collected. -/
def handleSimultaneousWarpCmd (e : Engine) (evt : SimultaneousWarpCmdEvent) :
    Engine :=
  let planned := gatherPlannedWarps e evt
  if planned.2.isEmpty then planned.1
  else
    let e1 :=
      if evt.emitAbilityTriggered = .afterResolution then
        record planned.1 (.abilityTriggeredPush evt.source)
      else planned.1
    let e2 := planned.2.foldl (fun acc pw =>
      setPosition acc pw.1.targetRacerIdx pw.2.2) e1
    planned.2.foldl (fun acc pw =>
      finalizeCommittedWarp acc pw.1 pw.2.1 pw.2.2) e2

/-- `handle_trip_cmd` from `engine/movement.py`. -/
def handleTripCmd (e : Engine) (evt : TripCmdEvent) : Engine :=
  let racer := getRacer e evt.targetRacerIdx
  if !racer.active || racer.tripped then e
  else
    let e1 := { e with racers :=
      (e.racers.set evt.targetRacerIdx { racer with tripped := true }) }
    let e2 := record e1 (.tripLog evt.targetRacerIdx)
    if evt.emitAbilityTriggered ≠ .never then
      record e2 (.abilityTriggeredPush evt.source)
    else e2

end Pkg

namespace LoopDet

/-- The racer fields read by `engine/loop_detection.py`: positional and
status data for `get_positional_hash`, plus the state-hash fields of
`engine/state.py` (the `core/state.py` variant it imports is absent from
the sources; its hashed racer data is modelled after the
`engine/state.py` formula). -/
structure RacerState where
  idx : Nat
  position : Int
  victoryPoints : Nat
  tripped : Bool
  finishPosition : Option Nat
  eliminated : Bool
  mainMoveConsumed : Bool
  activeAbilities : List String
  modifierNames : List String
  deriving DecidableEq, Repr

/-- `RacerState.active`. -/
def RacerState.active (r : RacerState) : Bool :=
  !r.finishPosition.isSome && !r.eliminated

/-- An event as seen by the loop detector: its class name, its
`target_racer_idx` when it is a `HasTargetRacer` (`none` otherwise), its
`source` tag, and its `phase`. -/
structure Event where
  typeName : String
  targetRacerIdx : Option Nat
  source : String
  phase : Nat
  deriving DecidableEq, Repr

/-- A queued event with its reaction `depth`. -/
structure ScheduledEvent where
  event : Event
  depth : Nat
  deriving DecidableEq, Repr

/-- The positional signature of `get_positional_hash`. -/
structure PositionalKey where
  racerData : List (Nat × Int × Bool × Bool × Bool)
  currentRacerIdx : Nat
  topPhase : Option Nat
  deriving DecidableEq, Repr

/-- The event signature of `get_event_signature`:
`(type name, target racer, source)`. -/
structure EventSig where
  typeName : String
  targetRacerIdx : Option Nat
  source : String
  deriving DecidableEq, Repr

/-- `LoopDetectionState` from `engine/loop_detection.py`.  The two
`defaultdict` fields are modelled as association lists (missing key =
default value). -/
structure LoopDetectionState where
  fullStateHistory : List StateHashValue
  positionalStateCount : List (PositionalKey × Nat)
  eventFrequency : List (EventSig × List Nat)
  maxPositionalRepeats : Nat := 3
  eventWindowSize : Nat := 50
  maxEventFrequency : Nat := 10

/-- The game-state surface read by `check_for_loops`: racers, the current
racer, the scheduler queue, the dynamic board modifiers (for the full
state hash), the monotone serial, and the loop-detection state. -/
structure GameState where
  racers : List RacerState
  currentRacerIdx : Nat
  queue : List ScheduledEvent
  dynamicModifiers : List (Nat × List String)
  serial : Nat
  loopDetection : LoopDetectionState

/-- Association-list lookup with a default (Python `defaultdict` read). -/
def lookupD {α β : Type} [DecidableEq α] (l : List (α × β)) (k : α) (d : β) : β :=
  match l.find? (fun p => p.1 = k) with
  | some p => p.2
  | none => d

/-- Association-list write (Python `defaultdict` assignment). -/
def setEntry {α β : Type} [DecidableEq α] (l : List (α × β)) (k : α) (v : β) :
    List (α × β) :=
  if l.any (fun p => p.1 = k) then
    l.map (fun p => if p.1 = k then (k, v) else p)
  else l ++ [(k, v)]

/-- `GameState.get_state_hash` as called by loop-detection level 1
(canonical value, per the `engine/state.py` formula). -/
def getStateHash (s : GameState) : StateHashValue :=
  { racerData := s.racers.map (fun r =>
      { idx := r.idx, position := r.position, tripped := r.tripped,
        finishPosition := r.finishPosition, eliminated := r.eliminated,
        victoryPoints := r.victoryPoints,
        abilities := r.activeAbilities.toFinset,
        modifierNames := r.modifierNames.toFinset }),
    boardData := ((s.dynamicModifiers.map (fun p => (p.1, p.2.toFinset))).toFinset) }

/-- `get_positional_hash` from `engine/loop_detection.py`. -/
def getPositionalHash (s : GameState) : PositionalKey :=
  { racerData := s.racers.map (fun r =>
      (r.idx, r.position, r.active, r.tripped, r.mainMoveConsumed)),
    currentRacerIdx := s.currentRacerIdx,
    topPhase := (s.queue.head?.map (fun q => q.event.phase)) }

/-- `get_event_signature` from `engine/loop_detection.py`. -/
def getEventSignature (event : Event) : EventSig :=
  { typeName := event.typeName, targetRacerIdx := event.targetRacerIdx,
    source := event.source }

/-- `check_for_loops` from `engine/loop_detection.py`: the four detection
levels in source order, returning `(should_skip, reason)` together with
the mutated `LoopDetectionState`. -/
def checkForLoops (state : GameState) (scheduledEvent : ScheduledEvent) :
    (Bool × Option String) × LoopDetectionState :=
  let loopState := state.loopDetection
  let currentFullHash := getStateHash state
  if currentFullHash ∈ loopState.fullStateHistory then
    ((true, some "Exact state repetition (full hash match)"), loopState)
  else
    let ls1 := { loopState with
      fullStateHistory := loopState.fullStateHistory ++ [currentFullHash] }
    let positionalHash := getPositionalHash state
    let repeatCount := lookupD ls1.positionalStateCount positionalHash 0 + 1
    let ls2 := { ls1 with
      positionalStateCount :=
        setEntry ls1.positionalStateCount positionalHash repeatCount }
    if repeatCount > ls2.maxPositionalRepeats then
      ((true, some "Positional loop detected"), ls2)
    else
      let eventSig := getEventSignature scheduledEvent.event
      let serial := state.serial
      let appended := lookupD ls2.eventFrequency eventSig [] ++ [serial]
      let recentSerials := appended.filter
        (fun s => s + ls2.eventWindowSize ≥ serial)
      let ls3 := { ls2 with
        eventFrequency := setEntry ls2.eventFrequency eventSig recentSerials }
      if recentSerials.length > ls3.maxEventFrequency then
        ((true, some "Event frequency loop"), ls3)
      else
        let maxDepth := 150
        if scheduledEvent.depth > maxDepth then
          ((true, some "Maximum event depth exceeded"), ls3)
        else ((false, none), ls3)

end LoopDet

namespace Proto

/-- The spec's ordering of the roll-modifier pipeline (§4.5 step 3),
stated for comparison with `applyMoveModifiers`: the owner's rotated
turn distance from `current_racer_idx`. -/
def rotationKey (e : GameEngine) (ownerIdx : Nat) : Nat :=
  let n := e.state.racers.length
  if n = 0 then 0
  else (((ownerIdx : Int) - (e.state.currentRacerIdx : Int)) % (n : Int)).toNat

/-- The spec's version of `apply_move_modifiers` (§4.5 step 3): the same
pipeline, but with the registered modifiers consulted "in stable order by
owner racer index rotated from `current_racer_idx`". -/
def applyMoveModifiersSpecOrder (e : GameEngine) (targetIdx : Nat) :
    GameEngine × List Int :=
  (e.modifiers.insertionSort
      (fun a b => rotationKey e a.2 ≤ rotationKey e b.2)).foldl
    (moveModifierStep targetIdx) (e, [])

/-- The deltas one registered modifier contributes to a
`MoveDistanceQuery`, as a function of the game state alone (the pipeline
mutates only the queue and serial, so the per-modifier deltas do not
depend on the consultation order). -/
def modDelta (st : GameState) (targetIdx : Nat) (m : AbilityName × Nat) :
    List Int :=
  let owner := st.racers.getD m.2 dummyRacer
  if owner.finished then []
  else
    match m.1 with
    | .Slime => if targetIdx = m.2 then [] else [-1]
    | .PartyBoost =>
        if targetIdx ≠ m.2 then []
        else
          let bonus := (st.racers.filter (fun r =>
            r.idx ≠ m.2 && !r.finished && r.position == owner.position)).length
          if bonus ≠ 0 then [(bonus : Int)] else []
    | _ => []

/-- The invariant behind the non-termination of a single-racer race: one
racer, `race_over` unset, and at most one finisher who is indeed marked
finished.  `race_over` is only ever set by `handle_finish` when a second
finisher arrives, which a one-racer engine never produces. -/
def SoloInv (e : GameEngine) : Prop :=
  e.state.racers.length = 1 ∧ e.raceOver = false ∧
    e.state.finishedOrder.length ≤ 1 ∧
    (e.state.finishedOrder ≠ [] → (getRacer e 0).finished = true)

/-- An engine with its monotone serial counter and its observation trace
erased, used to witness that the post-finish solo-race states repeat
exactly (only the serial counter keeps growing). -/
def projNoSerial (e : GameEngine) : GameEngine :=
  { e with serial := 0, trace := [] }

/-- Constant dice stream: every `randint(1, 6)` yields 6 and every
`choice` picks index `5 mod len`. -/
def diceFive : Nat → Nat := fun _ => 5

/-- The one-racer roster `["Centaur"]`. -/
def exSoloEngine : GameEngine := buildEngine [.Centaur]

/-- A concrete scheduler queue for the pop-minimality witness. -/
def exQueue : List ScheduledEvent :=
  [⟨30, 0, 3, .landing 0 6⟩, ⟨0, 0, 4, .turnStart 0⟩,
   ⟨20, 1, 5, .rollAndMainMove 0⟩]

/-- The engine at the start of PartyAnimal's turn in a `[Gunk,
PartyAnimal]` race (both racers on tile 0): the input of the
roll-modifier ordering counterexample. -/
def exModsEngine : GameEngine :=
  let e := buildEngine [.Gunk, .PartyAnimal]
  { e with state := { e.state with currentRacerIdx := 1 } }

end Proto

namespace Pkg

/-- A racer with default state at a given tile. -/
def mkRacer (idx : Nat) (position : Int) : RacerState :=
  { idx := idx, name := "", position := position, victoryPoints := 0,
    tripped := false, rerollCount := 0, finishPosition := none,
    eliminated := false, modifiers := [], activeAbilities := [] }

/-- A 30-tile board with no space modifiers: `resolve_position` is the
identity. -/
def boardId : Board :=
  { length := 30, finishTile := 29, dynamicModifiers := [],
    resolvePos := fun t _ => t }

/-- A board whose single approach hook redirects every incoming racer to
tile 3 (a blocker bouncing movers back, as Huge Baby does). -/
def boardBounceTo3 : Board :=
  { length := 30, finishTile := 29, dynamicModifiers := [],
    resolvePos := fun _ _ => 3 }

/-- One active racer on tile 3, with the zero-move rules flag SET. -/
def exMoveEngine : Engine :=
  { racers := [mkRacer 0 3], rules := { count0MovesForAbilityTriggered := true },
    board := boardId, raceOver := false, actions := [] }

/-- The same racer and rules on the bouncing board. -/
def exBounceEngine : Engine :=
  { exMoveEngine with board := boardBounceTo3 }

/-- A zero-distance move command with `after_resolution` discipline. -/
def exZeroMoveEvt : MoveCmdEvent :=
  { targetRacerIdx := 0, distance := 0, source := "ScoochStep", phase := 20,
    emitAbilityTriggered := .afterResolution, responsibleRacerIdx := some 0 }

/-- A distance-1 move command with `after_resolution` discipline. -/
def exOneMoveEvt : MoveCmdEvent :=
  { targetRacerIdx := 0, distance := 1, source := "ScoochStep", phase := 20,
    emitAbilityTriggered := .afterResolution, responsibleRacerIdx := some 0 }

/-- One active racer on tile 0 for the simultaneous-warp counterexample. -/
def exSimEngine : Engine :=
  { racers := [mkRacer 0 0], rules := { count0MovesForAbilityTriggered := false },
    board := boardId, raceOver := false, actions := [] }

/-- A simultaneous warp listing the same racer twice: to tile 5 and to
tile 7. -/
def exSimEvt : SimultaneousWarpCmdEvent :=
  { warps := [(0, 5), (0, 7)], source := "FlipFlopSwap", phase := 20,
    emitAbilityTriggered := .never, responsibleRacerIdx := some 0 }

/-- One recorded action is compatible with the claim's atomicity: if it
is a landing hook, its positions snapshot shows every planned (committed)
warp already applied. -/
def onLandEntryOk (planned : List (WarpCmdEvent × Int × Int))
    (a : Action) : Bool :=
  match a with
  | .onLand _ _ positionsSnapshot =>
      planned.all (fun pw =>
        positionsSnapshot.getD pw.1.targetRacerIdx 0 == pw.2.2)
  | _ => true

/-- The claim's atomicity property, as a decidable check: every landing
hook recorded during `handle_simultaneous_warp_cmd` observes every
planned (committed) warp already applied. -/
def onLandSeesAllCommits (actions : List Action)
    (planned : List (WarpCmdEvent × Int × Int)) : Bool :=
  actions.all (onLandEntryOk planned)

/-- Two active racers on tiles 0 and 1 for the simultaneous-warp
witness. -/
def exSim2Engine : Engine :=
  { racers := [mkRacer 0 0, mkRacer 1 1],
    rules := { count0MovesForAbilityTriggered := false },
    board := boardId, raceOver := false, actions := [] }

/-- A simultaneous warp of the two distinct racers to tiles 5 and 7. -/
def exSimEvt2 : SimultaneousWarpCmdEvent :=
  { warps := [(0, 5), (1, 7)], source := "FlipFlopSwap", phase := 20,
    emitAbilityTriggered := .never, responsibleRacerIdx := some 0 }

/-- Engines for the trip-command witness: racer 0 active and upright,
racer 1 already tripped. -/
def exTripEngine : Engine :=
  { racers := [mkRacer 0 2, { mkRacer 1 4 with tripped := true }],
    rules := { count0MovesForAbilityTriggered := false },
    board := boardId, raceOver := false, actions := [] }

/-- A trip command against racer 1 (already tripped). -/
def exTripEvtTripped : TripCmdEvent :=
  { targetRacerIdx := 1, source := "BananaTrip", phase := 20,
    emitAbilityTriggered := .afterResolution, responsibleRacerIdx := some 0 }

/-- A trip command against racer 0 (active, upright). -/
def exTripEvtFresh : TripCmdEvent :=
  { targetRacerIdx := 0, source := "BananaTrip", phase := 20,
    emitAbilityTriggered := .afterResolution, responsibleRacerIdx := some 1 }

/-- Two racers agree except possibly in the order of their attached
modifier list and in the insertion order of their ability map. -/
def racerOrderEquiv (a b : RacerState) : Prop :=
  a.idx = b.idx ∧ a.position = b.position ∧ a.tripped = b.tripped ∧
    a.finishPosition = b.finishPosition ∧ a.eliminated = b.eliminated ∧
    a.victoryPoints = b.victoryPoints ∧
    a.activeAbilities.Perm b.activeAbilities ∧
    (a.modifiers.map (fun m => m.name)).Perm
      (b.modifiers.map (fun m => m.name))

/-- Two tile entries agree except possibly in the order of the tile's
dynamic space modifiers. -/
def tileOrderEquiv (p q : Nat × List ModifierInst) : Prop :=
  p.1 = q.1 ∧ (p.2.map (fun m => m.name)).Perm (q.2.map (fun m => m.name))

/-- A racer carrying two modifiers and two abilities, listed one way. -/
def exHashRacer1 : RacerState :=
  { idx := 0, name := "Gunk", position := 3, victoryPoints := 1,
    tripped := false, rerollCount := 0, finishPosition := none,
    eliminated := false,
    modifiers := [{ name := "GunkSlimeModifier", ownerIdx := some 1 },
                  { name := "MastermindPrediction", ownerIdx := some 2 }],
    activeAbilities := ["GunkSlime", "ScoochStep"] }

/-- The same racer with both internal lists reversed. -/
def exHashRacer2 : RacerState :=
  { exHashRacer1 with
    modifiers := [{ name := "MastermindPrediction", ownerIdx := some 2 },
                  { name := "GunkSlimeModifier", ownerIdx := some 1 }],
    activeAbilities := ["ScoochStep", "GunkSlime"] }

/-- A board with one dynamic-modifier tile, listed one way. -/
def exHashBoard1 : Board :=
  { length := 30, finishTile := 29,
    dynamicModifiers :=
      [(4, [{ name := "HugeBabyBlocker", ownerIdx := some 0 },
            { name := "MoveDeltaTile", ownerIdx := none }])],
    resolvePos := fun t _ => t }

/-- The same board with the tile's modifier list reversed. -/
def exHashBoard2 : Board :=
  { exHashBoard1 with
    dynamicModifiers :=
      [(4, [{ name := "MoveDeltaTile", ownerIdx := none },
            { name := "HugeBabyBlocker", ownerIdx := some 0 }])] }

/-- A game state built from `exHashRacer1` and `exHashBoard1`. -/
def exHashState1 : GameState :=
  { racers := [exHashRacer1], currentRacerIdx := 0,
    rollState := { serialId := 0, baseValue := 0, finalValue := 0 },
    board := exHashBoard1 }

/-- The same game state with every internal list reordered. -/
def exHashState2 : GameState :=
  { racers := [exHashRacer2], currentRacerIdx := 0,
    rollState := { serialId := 0, baseValue := 0, finalValue := 0 },
    board := exHashBoard2 }

end Pkg

namespace LoopDet

/-- A loop-detection state in which the signature
`("MoveCmdEvent", some 0, "ScoochStep")` has already been recorded eleven
times at serials 39–49. -/
def exLoopState : LoopDetectionState :=
  { fullStateHistory := [], positionalStateCount := [],
    eventFrequency :=
      [({ typeName := "MoveCmdEvent", targetRacerIdx := some 0,
          source := "ScoochStep" },
        [39, 40, 41, 42, 43, 44, 45, 46, 47, 48, 49])] }

/-- A game state at serial 50 carrying `exLoopState`. -/
def exLoopGameState : GameState :=
  { racers := [{ idx := 0, position := 2, victoryPoints := 0, tripped := false,
                 finishPosition := none, eliminated := false,
                 mainMoveConsumed := false, activeAbilities := ["ScoochStep"],
                 modifierNames := [] }],
    currentRacerIdx := 0, queue := [], dynamicModifiers := [], serial := 50,
    loopDetection := exLoopState }

/-- The eleventh in-window occurrence of the tracked signature. -/
def exLoopSched : ScheduledEvent :=
  { event := { typeName := "MoveCmdEvent", targetRacerIdx := some 0,
               source := "ScoochStep", phase := 30 }, depth := 3 }

end LoopDet

/-! ## Theorems -/

open Proto in
/-- C1: For every roster, board, rules, and seed, two independent runs of
the engine produce identical sequences of dispatched events and the same
state hash after every dispatch, hence identical final positions, victory
points, and finish order.  (In the embedding a seed determines the dice
stream; the trace holds the dispatched events and the post-dispatch state
hashes, and the final `GameState` holds positions, victory points and the
finish order.) -/
theorem c1_run_determinism (roster1 roster2 : List RacerName)
    (dice1 dice2 : Nat → Nat) (turnFuel eventFuel : Nat)
    (h1 : roster1 = roster2) (h2 : dice1 = dice2) :
    (runRace dice1 turnFuel eventFuel (buildEngine roster1)).trace =
      (runRace dice2 turnFuel eventFuel (buildEngine roster2)).trace ∧
    (runRace dice1 turnFuel eventFuel (buildEngine roster1)).state =
      (runRace dice2 turnFuel eventFuel (buildEngine roster2)).state := by
  subst h1
  subst h2
  exact ⟨rfl, rfl⟩

open Proto in
/-- Witness for C1 at the roster `[Centaur, Banana]` with the constant
dice stream. -/
theorem c1_run_determinism_witness :
    (runRace diceFive 4 50 (buildEngine [.Centaur, .Banana])).trace =
      (runRace diceFive 4 50 (buildEngine [.Centaur, .Banana])).trace ∧
    (runRace diceFive 4 50 (buildEngine [.Centaur, .Banana])).state =
      (runRace diceFive 4 50 (buildEngine [.Centaur, .Banana])).state :=
  c1_run_determinism [.Centaur, .Banana] [.Centaur, .Banana] diceFive diceFive
    4 50 rfl rfl

open Proto in
/-- C2 counterexample: in the very first turn of a solo Centaur race the
dispatch loop pops the main `CmdMoveEvent` (key `(30, 0, 3)`) and then
the `LandingEvent` it scheduled (key `(0, 0, 4)`): two consecutively
popped events whose keys are NOT lexicographically ordered. -/
theorem c2_counterexample :
    ((runRace diceFive 1 50 exSoloEngine).trace.map
        (fun t => schedKey t.sched)).take 4 =
      [(0, 0, 1), (0, 0, 2), (30, 0, 3), (0, 0, 4)] ∧
    keyLe (30, 0, 3) (0, 0, 4) = false := by
  decide

section FinishCheck

open Proto

theorem getD_set_self {α : Type} (l : List α) (i : Nat) (a d : α)
    (h : i < l.length) : (l.set i a).getD i d = a := by
  simp [List.getD, List.getElem?_set_self', h]

theorem getRacer_setRacer_self (e : GameEngine) (i : Nat)
    (f : RacerState → RacerState) (h : i < e.state.racers.length) :
    getRacer (setRacer e i f) i = f (getRacer e i) := by
  simp only [getRacer, setRacer]
  exact getD_set_self _ _ _ _ h

theorem setRacer_length (e : GameEngine) (i : Nat)
    (f : RacerState → RacerState) :
    (setRacer e i f).state.racers.length = e.state.racers.length := by
  simp [setRacer]

theorem setRacer_finishedOrder (e : GameEngine) (i : Nat)
    (f : RacerState → RacerState) :
    (setRacer e i f).state.finishedOrder = e.state.finishedOrder := rfl

/-- What `handle_finish` does to a not-yet-finished racer: mark finished,
pin the position, append to the finish order, award `WIN_VP` to the
first finisher, and set `race_over` from the second finisher on. -/
theorem handleFinish_spec (e : GameEngine) (i : Nat)
    (hlen : i < e.state.racers.length)
    (hfin : (getRacer e i).finished = false) :
    (getRacer (handleFinish e i) i).finished = true ∧
    (getRacer (handleFinish e i) i).position = FINISH_SPACE + 1 ∧
    (handleFinish e i).state.finishedOrder =
      e.state.finishedOrder ++ [i] ∧
    (e.state.finishedOrder.length = 0 →
      (getRacer (handleFinish e i) i).victoryPoints =
        (getRacer e i).victoryPoints + WIN_VP) ∧
    (e.state.finishedOrder.length ≥ 1 →
      (handleFinish e i).raceOver = true) := by
  have hfin' : ¬((getRacer e i).finished = true) := by simp [hfin]
  have hlen1 : i < (setRacer e i fun r =>
      { r with finished := true, position := FINISH_SPACE + 1 }
      ).state.racers.length := by
    rwa [setRacer_length]
  have hg1 := getRacer_setRacer_self e i
    (fun r => { r with finished := true, position := FINISH_SPACE + 1 }) hlen
  unfold handleFinish
  rw [if_neg hfin']
  dsimp only
  simp only [setRacer_finishedOrder, List.length_append,
    List.length_singleton]
  by_cases hfo : e.state.finishedOrder.length = 0
  · rw [if_pos (by omega : e.state.finishedOrder.length + 1 = 1),
      if_neg (by omega : ¬e.state.finishedOrder.length + 1 ≥ 2)]
    refine ⟨?_, ?_, ?_, fun _ => ?_, fun hcon => by omega⟩ <;>
      simp [setRacer, getRacer, getD_set_self, List.length_set, hlen]
  · rw [if_neg (by omega : ¬e.state.finishedOrder.length + 1 = 1),
      if_pos (by omega : e.state.finishedOrder.length + 1 ≥ 2)]
    refine ⟨?_, ?_, ?_, fun hcon => by omega, fun _ => rfl⟩ <;>
      simp [setRacer, getRacer, getD_set_self, List.length_set, hlen]

end FinishCheck

open Proto in
/-- C5 (amended): a landing finishes a racer only when the committed
position is strictly beyond the finish tile (`position > FINISH_SPACE`,
i.e. `position ≥ FINISH_SPACE + 1`), not on `position ≥ finish_tile`:
then the racer is marked finished, its position is pinned to
`FINISH_SPACE + 1`, it is appended to the finish order (its 1-based
ordinal being the new length), the first finisher is awarded `WIN_VP`,
and a second finisher sets `race_over`. -/
theorem c5_finish_amended (dice : Nat → Nat) (e : GameEngine) (i : Nat)
    (tile : Int) (hlen : i < e.state.racers.length)
    (hidx : (getRacer e i).idx = i)
    (hfin : (getRacer e i).finished = false)
    (htile : tile > FINISH_SPACE) :
    (getRacer (onLanding dice i tile e) i).finished = true ∧
    (getRacer (onLanding dice i tile e) i).position = FINISH_SPACE + 1 ∧
    (onLanding dice i tile e).state.finishedOrder =
      e.state.finishedOrder ++ [i] ∧
    (e.state.finishedOrder.length = 0 →
      (getRacer (onLanding dice i tile e) i).victoryPoints =
        (getRacer e i).victoryPoints + WIN_VP) ∧
    (e.state.finishedOrder.length ≥ 1 →
      (onLanding dice i tile e).raceOver = true) := by
  have hland : onLanding dice i tile e =
      handleFinish (setRacer e i fun r => { r with position := tile }) i := by
    unfold onLanding
    rw [if_neg (by simp [hfin]), if_pos htile, hidx]
  have hlen1 : i < (setRacer e i fun r =>
      { r with position := tile }).state.racers.length := by
    rwa [setRacer_length]
  have hg1 := getRacer_setRacer_self e i
    (fun r => { r with position := tile }) hlen
  have hfin1 : (getRacer (setRacer e i fun r =>
      { r with position := tile }) i).finished = false := by
    rw [hg1]; exact hfin
  have hs := handleFinish_spec
    (setRacer e i fun r => { r with position := tile }) i hlen1 hfin1
  rw [setRacer_finishedOrder] at hs
  rw [hland]
  obtain ⟨h1, h2, h3, h4, h5⟩ := hs
  refine ⟨h1, h2, h3, fun h0 => ?_, h5⟩
  rw [h4 h0, hg1]

open Proto in
/-- Witness for the amended C5: the solo Centaur landing on tile 21. -/
theorem c5_finish_amended_witness :
    (getRacer (onLanding diceFive 0 21 exSoloEngine) 0).finished = true ∧
    (getRacer (onLanding diceFive 0 21 exSoloEngine) 0).position =
      FINISH_SPACE + 1 ∧
    (onLanding diceFive 0 21 exSoloEngine).state.finishedOrder =
      exSoloEngine.state.finishedOrder ++ [0] ∧
    (exSoloEngine.state.finishedOrder.length = 0 →
      (getRacer (onLanding diceFive 0 21 exSoloEngine) 0).victoryPoints =
        (getRacer exSoloEngine 0).victoryPoints + WIN_VP) ∧
    (exSoloEngine.state.finishedOrder.length ≥ 1 →
      (onLanding diceFive 0 21 exSoloEngine).raceOver = true) :=
  c5_finish_amended diceFive exSoloEngine 0 21 (by decide) (by decide)
    (by decide) (by decide)

open Proto in
/-- C5 counterexample: a racer whose landing commits position exactly on
the finish tile (`position = FINISH_SPACE = 20`, so `position ≥
finish_tile`) is NOT marked finished and is not appended to the finish
order — `on_landing` finishes only on `position > FINISH_SPACE`. -/
theorem c5_counterexample :
    (getRacer (onLanding diceFive 0 20 exSoloEngine) 0).position = 20 ∧
    ((20 : Int) ≥ FINISH_SPACE) ∧
    (getRacer (onLanding diceFive 0 20 exSoloEngine) 0).finished = false ∧
    (onLanding diceFive 0 20 exSoloEngine).state.finishedOrder = [] := by
  decide

section ModifierPipeline

open Proto

theorem pushEvent_state (e : GameEngine) (ev : GameEvent) (ph : Nat)
    (r : Option Nat) : (pushEvent e ev ph r).state = e.state := rfl

theorem emitAbilityTrigger_state (e : GameEngine) (s : Nat)
    (a : AbilityName) : (emitAbilityTrigger e s a).state = e.state := by
  unfold emitAbilityTrigger
  split
  · rfl
  · rfl

theorem modifierModify_state (m : AbilityName) (o t : Nat)
    (acc : GameEngine × List Int) :
    (modifierModify m o t acc).1.state = acc.1.state := by
  cases m <;> simp only [modifierModify]
  case Slime =>
    split
    · rfl
    · exact emitAbilityTrigger_state _ _ _
  case PartyBoost =>
    split
    · rfl
    · split
      · exact emitAbilityTrigger_state _ _ _
      · rfl

theorem moveModifierStep_state (t : Nat) (acc : GameEngine × List Int)
    (m : AbilityName × Nat) :
    (moveModifierStep t acc m).1.state = acc.1.state := by
  unfold moveModifierStep
  split
  · rfl
  · exact modifierModify_state _ _ _ _

theorem moveModifierStep_deltas (t : Nat) (st : GameState)
    (m : AbilityName × Nat) (acc : GameEngine × List Int)
    (h : acc.1.state = st) :
    (moveModifierStep t acc m).2 = acc.2 ++ modDelta st t m := by
  subst h
  unfold moveModifierStep modDelta
  by_cases hfin : (getRacer acc.1 m.2).finished = true
  · rw [if_pos hfin, if_pos (by simpa [getRacer] using hfin)]
    simp
  · rw [if_neg hfin, if_neg (by simpa [getRacer] using hfin)]
    cases hm : m.1 <;> simp only [modifierModify] <;>
      try rw [List.append_nil]
    · split
      · next hq => rw [List.append_nil]
      · next hq => rfl
    · split
      · next hq => rw [List.append_nil]
      · next hq =>
          simp only [getRacer]
          split
          · next hb => rfl
          · next hb => rw [List.append_nil]

theorem applyModifiers_fold_spec (t : Nat) (st : GameState) :
    ∀ (mods : List (AbilityName × Nat)) (eng : GameEngine) (ds : List Int),
      eng.state = st →
      (mods.foldl (moveModifierStep t) (eng, ds)).2 =
        ds ++ mods.flatMap (modDelta st t) ∧
      (mods.foldl (moveModifierStep t) (eng, ds)).1.state = st := by
  intro mods
  induction mods with
  | nil => intro eng ds h; simpa using h
  | cons m rest ih =>
      intro eng ds h
      have hstate : (moveModifierStep t (eng, ds) m).1.state = st := by
        rw [moveModifierStep_state]; exact h
      have hdelta := moveModifierStep_deltas t st m (eng, ds) h
      have hrec := ih (moveModifierStep t (eng, ds) m).1
        (moveModifierStep t (eng, ds) m).2 hstate
      constructor
      · rw [List.foldl_cons]
        calc (rest.foldl (moveModifierStep t) (moveModifierStep t (eng, ds) m)).2
            = (moveModifierStep t (eng, ds) m).2 ++
                rest.flatMap (modDelta st t) := by
              rw [← hrec.1]
        _ = ds ++ (m :: rest).flatMap (modDelta st t) := by
              rw [hdelta, List.flatMap_cons, List.append_assoc]
      · rw [List.foldl_cons]
        rw [← hrec.2]

end ModifierPipeline

open Proto in
/-- C6 (amended): when `RollAndMainMove` is dispatched, the registered
roll-modification modifiers are consulted in registration order (the
engine's modifier list order), not rotated from `current_racer_idx`;
modifiers whose owner is finished are skipped, the others append their
signed deltas (a pure function of the game state, which the pipeline
never mutates), and the final main-move distance is
`max(0, base + sum(modifiers))` — which, addition being commutative,
coincides with the distance the spec's rotated order would produce. -/
theorem c6_modifier_pipeline_amended (e : GameEngine) (targetIdx : Nat)
    (baseRoll : Nat) :
    (applyMoveModifiers e targetIdx).2 =
      e.modifiers.flatMap (modDelta e.state targetIdx) ∧
    (applyMoveModifiers e targetIdx).1.state = e.state ∧
    finalValue baseRoll (applyMoveModifiers e targetIdx).2 =
      max 0 ((baseRoll : Int) +
        (e.modifiers.flatMap (modDelta e.state targetIdx)).sum) ∧
    finalValue baseRoll (applyMoveModifiers e targetIdx).2 =
      finalValue baseRoll (applyMoveModifiersSpecOrder e targetIdx).2 := by
  have hmain := applyModifiers_fold_spec targetIdx e.state e.modifiers e [] rfl
  have hspec := applyModifiers_fold_spec targetIdx e.state
    (e.modifiers.insertionSort
      (fun a b => rotationKey e a.2 ≤ rotationKey e b.2)) e [] rfl
  have hperm : ((e.modifiers.insertionSort
      (fun a b => rotationKey e a.2 ≤ rotationKey e b.2)).flatMap
        (modDelta e.state targetIdx)).Perm
      (e.modifiers.flatMap (modDelta e.state targetIdx)) :=
    (List.perm_insertionSort _ e.modifiers).flatMap_right _
  refine ⟨by simpa using hmain.1, hmain.2, ?_, ?_⟩
  · rw [show (applyMoveModifiers e targetIdx).2 =
      e.modifiers.flatMap (modDelta e.state targetIdx) by simpa using hmain.1]
    rfl
  · unfold finalValue
    rw [show (applyMoveModifiers e targetIdx).2 =
      e.modifiers.flatMap (modDelta e.state targetIdx) by simpa using hmain.1]
    rw [show (applyMoveModifiersSpecOrder e targetIdx).2 =
      (e.modifiers.insertionSort
        (fun a b => rotationKey e a.2 ≤ rotationKey e b.2)).flatMap
          (modDelta e.state targetIdx) by simpa using hspec.1]
    rw [hperm.sum_eq]

open Proto in
/-- C6 counterexample: at PartyAnimal's turn (`current_racer_idx = 1`) in
a `[Gunk, PartyAnimal]` race, `apply_move_modifiers` consults the
modifiers in registration order (Gunk's Slime first, then PartyBoost),
emitting `AbilityTriggered` for owner 0 before owner 1; the spec's
rotated order would consult owner 1 first.  The two orders are
observably different, so the claim's ordering is false. -/
theorem c6_counterexample :
    ((applyMoveModifiers exModsEngine 1).1.queue.map (fun s => s.event) =
      [.abilityTriggered 0 .Slime, .abilityTriggered 1 .PartyBoost]) ∧
    ((applyMoveModifiersSpecOrder exModsEngine 1).1.queue.map
        (fun s => s.event) =
      [.abilityTriggered 1 .PartyBoost, .abilityTriggered 0 .Slime]) ∧
    ((applyMoveModifiers exModsEngine 1).1.queue.map (fun s => s.event) ≠
      (applyMoveModifiersSpecOrder exModsEngine 1).1.queue.map
        (fun s => s.event)) := by
  decide

open Pkg in
/-- C4 counterexample: with the rules flag
`count_0_moves_for_ability_triggered` SET and discipline
`after_resolution`, a zero-distance `MoveCmd` is dropped with no
`AbilityTriggered` (and no effect at all), and a move resolved back to
its start tile returns right after `PreMove` with no `AbilityTriggered`
either — the claim's exception clause never fires. -/
theorem c4_counterexample :
    (handleMoveCmd exMoveEngine exZeroMoveEvt).actions = [] ∧
    (handleMoveCmd exMoveEngine exZeroMoveEvt).racers = exMoveEngine.racers ∧
    exMoveEngine.rules.count0MovesForAbilityTriggered = true ∧
    (handleMoveCmd exBounceEngine exOneMoveEvt).actions =
      [.preMove 0 3 1] ∧
    (handleMoveCmd exBounceEngine exOneMoveEvt).racers =
      exBounceEngine.racers := by
  decide

section SoloInvariant

open Proto

/-- Folding a step that preserves a predicate preserves it. -/
theorem foldl_preserves {β α : Type} (P : β → Prop) (f : β → α → β)
    (hf : ∀ b a, P b → P (f b a)) :
    ∀ (l : List α) (b : β), P b → P (l.foldl f b) := by
  intro l
  induction l with
  | nil => intro b hb; simpa using hb
  | cons x xs ih =>
      intro b hb
      simpa using ih (f b x) (hf b x hb)

/-- `SoloInv` only looks at the racer list, the finish order and the
race-over flag. -/
theorem soloInv_parts {e e' : GameEngine} (h : SoloInv e)
    (hr : e'.state.racers = e.state.racers)
    (hf : e'.state.finishedOrder = e.state.finishedOrder)
    (ho : e'.raceOver = e.raceOver) : SoloInv e' := by
  obtain ⟨h1, h2, h3, h4⟩ := h
  exact ⟨by rw [hr]; exact h1, by rw [ho]; exact h2, by rw [hf]; exact h3,
    fun hne => by
      have : (getRacer e 0).finished = true := h4 (by rwa [hf] at hne)
      simpa [getRacer, hr] using this⟩

theorem soloInv_pushEvent {e : GameEngine} (h : SoloInv e) (ev : GameEvent)
    (ph : Nat) (r : Option Nat) : SoloInv (pushEvent e ev ph r) :=
  soloInv_parts h rfl rfl rfl

theorem soloInv_emitAbilityTrigger {e : GameEngine} (h : SoloInv e)
    (src : Nat) (a : AbilityName) : SoloInv (emitAbilityTrigger e src a) := by
  unfold emitAbilityTrigger
  split
  · exact h
  · exact soloInv_pushEvent h _ _ _

theorem soloInv_setRacer {e : GameEngine} (h : SoloInv e) (i : Nat)
    (f : RacerState → RacerState)
    (hfin : ∀ r, (f r).finished = r.finished) : SoloInv (setRacer e i f) := by
  obtain ⟨h1, h2, h3, h4⟩ := h
  obtain ⟨r, hr⟩ := List.length_eq_one.mp h1
  refine ⟨?_, h2, h3, ?_⟩
  · simpa [setRacer] using h1
  · intro hne
    have hfin0 : r.finished = true := by
      have := h4 hne
      simpa [getRacer, hr] using this
    cases i with
    | zero => simp [setRacer, getRacer, hr, hfin, hfin0]
    | succ k => simp [setRacer, getRacer, hr, hfin0]

theorem soloInv_handleFinish {e : GameEngine} (h : SoloInv e) (i : Nat) :
    SoloInv (handleFinish e i) := by
  obtain ⟨h1, h2, h3, h4⟩ := h
  obtain ⟨r, hr⟩ := List.length_eq_one.mp h1
  by_cases hfin : (getRacer e i).finished = true
  · unfold handleFinish
    simp [hfin]
    exact ⟨h1, h2, h3, h4⟩
  · cases i with
    | succ k =>
        exact absurd (by simp [getRacer, hr, dummyRacer]) hfin
    | zero =>
        have hfo : e.state.finishedOrder = [] := by
          by_contra hne
          exact hfin (h4 hne)
        have hrf : r.finished = false := by
          have : ¬r.finished = true := by simpa [getRacer, hr] using hfin
          simpa using this
        unfold handleFinish
        refine ⟨?_, ?_, ?_, ?_⟩ <;>
          simp [getRacer, setRacer, hr, hfo, h2, hrf, SoloInv]

theorem soloInv_registerAbility {e : GameEngine} (h : SoloInv e)
    (o : Nat) (a : AbilityName) : SoloInv (registerAbility e o a) := by
  unfold registerAbility
  refine foldl_preserves SoloInv _ (fun b t hb => ?_) _ _ h
  exact soloInv_parts hb rfl rfl rfl

theorem soloInv_registerName {e : GameEngine} (h : SoloInv e)
    (o : Nat) (a : AbilityName) : SoloInv (registerName e o a) := by
  unfold registerName
  split
  · split
    · exact soloInv_parts (soloInv_registerAbility h o a) rfl rfl rfl
    · exact soloInv_registerAbility h o a
  · split
    · exact soloInv_parts h rfl rfl rfl
    · exact h

theorem soloInv_updateRacerAbilities {e : GameEngine} (h : SoloInv e)
    (i : Nat) (abs : List AbilityName) :
    SoloInv (updateRacerAbilities e i abs) := by
  unfold updateRacerAbilities
  refine foldl_preserves SoloInv _
    (fun b a hb => soloInv_registerName hb i a) _ _ ?_
  exact soloInv_parts
    (soloInv_setRacer h i (fun r => { r with abilities := abs })
      (fun r => rfl)) rfl rfl rfl

theorem soloInv_executeAbility {e : GameEngine} (h : SoloInv e)
    (dice : Nat → Nat) (a : AbilityName) (event : GameEvent) (owner : Nat) :
    SoloInv (executeAbility dice a event owner e) := by
  cases a <;> cases event <;> simp only [executeAbility] <;> try exact h
  case Trample.passing =>
    split
    · exact h
    · split
      · exact h
      · exact foldl_preserves SoloInv _
          (fun b v hb => soloInv_pushEvent hb _ _ _) _ _ h
  case BigBabyPush.landing =>
    split
    · exact h
    · split
      · exact h
      · exact soloInv_pushEvent h _ _ _
  case BananaTrip.passing =>
    split
    · exact h
    · split
      · exact h
      · split
        · exact h
        · exact soloInv_setRacer h _
            (fun r => { r with tripped := true }) (fun r => rfl)
  case ScoochStep.abilityTriggered =>
    split
    · exact h
    · exact soloInv_pushEvent h _ _ _
  case CopyLead.turnStart =>
    split
    · exact h
    · split
      · exact h
      · simp only [rngChoice]
        refine soloInv_updateRacerAbilities ?_ _ _
        exact soloInv_parts h rfl rfl rfl
  case PartyPull.turnStart =>
    split
    · exact h
    · split
      · exact h
      · refine foldl_preserves SoloInv _ (fun b r hb => ?_) _ _ h
        split
        · exact hb
        · split
          · exact soloInv_pushEvent hb _ _ _
          · split
            · exact soloInv_pushEvent hb _ _ _
            · exact hb

theorem soloInv_wrappedHandler {e : GameEngine} (h : SoloInv e)
    (dice : Nat → Nat) (a : AbilityName) (event : GameEvent) (owner : Nat) :
    SoloInv (wrappedHandler dice a event owner e) :=
  soloInv_emitAbilityTrigger (soloInv_executeAbility h dice a event owner) _ _

theorem soloInv_publishToSubscribers {e : GameEngine} (h : SoloInv e)
    (dice : Nat → Nat) (event : GameEvent) :
    SoloInv (publishToSubscribers dice event e) := by
  unfold publishToSubscribers
  refine foldl_preserves SoloInv _ (fun b s hb => ?_) _ _ h
  split
  · exact hb
  · exact soloInv_wrappedHandler hb dice _ event _

theorem soloInv_modifierModify {p : GameEngine × List Int}
    (h : SoloInv p.1) (m : AbilityName) (o t : Nat) :
    SoloInv (modifierModify m o t p).1 := by
  cases m <;> simp only [modifierModify] <;> try exact h
  case Slime =>
    split
    · exact h
    · exact soloInv_emitAbilityTrigger h _ _
  case PartyBoost =>
    split
    · exact h
    · split
      · exact soloInv_emitAbilityTrigger h _ _
      · exact h

theorem soloInv_applyMoveModifiers {e : GameEngine} (h : SoloInv e)
    (t : Nat) : SoloInv (applyMoveModifiers e t).1 := by
  unfold applyMoveModifiers
  refine foldl_preserves (fun p : GameEngine × List Int => SoloInv p.1) _
    (fun b m hb => ?_) _ _ h
  unfold moveModifierStep
  split
  · exact hb
  · exact soloInv_modifierModify hb _ _ _

theorem soloInv_onRollAndMainMove {e : GameEngine} (h : SoloInv e)
    (dice : Nat → Nat) (r : Nat) :
    SoloInv (onRollAndMainMove dice r e) := by
  unfold onRollAndMainMove
  split
  · exact h
  · simp only [rollDie]
    have h1 : SoloInv ({ e with rngIdx := e.rngIdx + 1 } : GameEngine) :=
      soloInv_parts h rfl rfl rfl
    have h2 := soloInv_applyMoveModifiers h1 r
    split
    · exact soloInv_pushEvent h2 _ _ _
    · exact h2

theorem soloInv_onCmdMove {e : GameEngine} (h : SoloInv e)
    (evt : GameEvent) : SoloInv (onCmdMove evt e) := by
  cases evt <;> simp only [onCmdMove] <;> try exact h
  case cmdMove =>
    split
    · exact h
    · split
      · exact soloInv_pushEvent h _ _ _
      · refine soloInv_pushEvent ?_ _ _ _
        exact foldl_preserves SoloInv _
          (fun b t hb => soloInv_pushEvent hb _ _ _) _ _ h

theorem soloInv_onLanding {e : GameEngine} (h : SoloInv e)
    (dice : Nat → Nat) (mover : Nat) (tile : Int) :
    SoloInv (onLanding dice mover tile e) := by
  unfold onLanding
  split
  · exact h
  · have h1 : SoloInv (setRacer e mover fun r => { r with position := tile }) :=
      soloInv_setRacer h mover (fun r => { r with position := tile })
        (fun r => rfl)
    split
    · exact soloInv_handleFinish h1 _
    · refine soloInv_publishToSubscribers ?_ dice _
      split
      · exact soloInv_setRacer h1 mover (fun r => { r with tripped := true })
          (fun r => rfl)
      · exact h1

theorem soloInv_onTurnStart {e : GameEngine} (h : SoloInv e)
    (dice : Nat → Nat) (r : Nat) : SoloInv (onTurnStart dice r e) := by
  unfold onTurnStart
  dsimp only
  split
  · exact h
  · split
    · exact soloInv_setRacer h r (fun x => { x with tripped := false })
        (fun x => rfl)
    · exact soloInv_pushEvent (soloInv_publishToSubscribers h dice _) _ _ _

theorem soloInv_handleEvent {e : GameEngine} (h : SoloInv e)
    (dice : Nat → Nat) (event : GameEvent) :
    SoloInv (handleEvent dice event e) := by
  cases event <;> simp only [handleEvent]
  case turnStart => exact soloInv_onTurnStart h dice _
  case rollAndMainMove => exact soloInv_onRollAndMainMove h dice _
  case cmdMove => exact soloInv_onCmdMove h _
  case passing => exact soloInv_publishToSubscribers h dice _
  case landing => exact soloInv_onLanding h dice _ _
  case abilityTriggered => exact soloInv_publishToSubscribers h dice _

theorem soloInv_isLoopCheck {e : GameEngine} (h : SoloInv e)
    (event : GameEvent) : SoloInv (isLoopCheck e event).2 := by
  unfold isLoopCheck
  dsimp only
  split
  · exact h
  · exact soloInv_parts h rfl rfl rfl

theorem soloInv_processEventsForTurn {e : GameEngine} (h : SoloInv e)
    (dice : Nat → Nat) (fuel : Nat) :
    SoloInv (processEventsForTurn dice fuel e) := by
  induction fuel generalizing e with
  | zero => simpa [processEventsForTurn] using h
  | succ f ih =>
      rw [processEventsForTurn]
      split
      · exact h
      · split
        · exact h
        · next sched rest heq =>
            have h1 : SoloInv ({ e with queue := rest } : GameEngine) :=
              soloInv_parts h rfl rfl rfl
            have h2 := soloInv_isLoopCheck h1 sched.event
            dsimp only
            cases hLC : isLoopCheck { e with queue := rest } sched.event with
            | mk skip e2 =>
                rw [hLC] at h2
                dsimp only
                cases skip with
                | true =>
                    simp only [if_pos rfl]
                    exact ih (soloInv_parts h2 rfl rfl rfl)
                | false =>
                    simp only [Bool.false_eq_true, if_false]
                    refine ih ?_
                    refine soloInv_parts ?_ rfl rfl rfl
                    exact soloInv_handleEvent h2 dice _

theorem soloInv_startTurn {e : GameEngine} (h : SoloInv e) :
    SoloInv (startTurn e) := by
  unfold startTurn
  dsimp only
  refine soloInv_pushEvent ?_ _ _ _
  exact soloInv_parts h rfl rfl rfl

theorem soloInv_advanceLoop {e : GameEngine} (h : SoloInv e) (k : Nat) :
    SoloInv (advanceLoop k e) := by
  induction k generalizing e with
  | zero => simpa [advanceLoop] using h
  | succ n ih =>
      rw [advanceLoop]
      split
      · exact soloInv_parts h rfl rfl rfl
      · exact ih (soloInv_parts h rfl rfl rfl)

theorem soloInv_advanceTurn {e : GameEngine} (h : SoloInv e) :
    SoloInv (advanceTurn e) := by
  unfold advanceTurn
  split
  · exact h
  · exact soloInv_advanceLoop h _

theorem soloInv_runTurn {e : GameEngine} (h : SoloInv e)
    (dice : Nat → Nat) (eventFuel : Nat) :
    SoloInv (runTurn dice eventFuel e) :=
  soloInv_advanceTurn
    (soloInv_processEventsForTurn (soloInv_startTurn h) dice eventFuel)

theorem soloInv_runRace {e : GameEngine} (h : SoloInv e)
    (dice : Nat → Nat) (turnFuel eventFuel : Nat) :
    SoloInv (runRace dice turnFuel eventFuel e) := by
  induction turnFuel generalizing e with
  | zero => simpa [runRace] using h
  | succ n ih =>
      rw [runRace]
      split
      · exact h
      · exact ih (soloInv_runTurn h dice eventFuel)

theorem soloInv_buildSolo : SoloInv (buildEngine [.Centaur]) := by
  constructor
  · decide
  · refine ⟨by decide, by decide, ?_⟩
    intro hne
    exact absurd rfl hne

end SoloInvariant

section SchedulerOrder

open Proto

theorem keyLe_iff (a b : Nat × Nat × Nat) :
    keyLe a b = true ↔
      (a.1 < b.1 ∨ (a.1 = b.1 ∧ (a.2.1 < b.2.1 ∨
        (a.2.1 = b.2.1 ∧ a.2.2 ≤ b.2.2)))) := by
  simp [keyLe, Bool.or_eq_true, Bool.and_eq_true, decide_eq_true_eq,
    beq_iff_eq]

theorem keyLe_refl (a : Nat × Nat × Nat) : keyLe a a = true := by
  rw [keyLe_iff]
  omega

theorem keyLe_trans {a b c : Nat × Nat × Nat} (h1 : keyLe a b = true)
    (h2 : keyLe b c = true) : keyLe a c = true := by
  rw [keyLe_iff] at h1 h2 ⊢
  omega

theorem keyLe_of_not {a b : Nat × Nat × Nat} (h : ¬keyLe a b = true) :
    keyLe b a = true := by
  rw [keyLe_iff] at h ⊢
  omega

theorem popMin_eq_none {l : List ScheduledEvent} (h : popMin l = none) :
    l = [] := by
  cases l with
  | nil => rfl
  | cons x xs =>
      rw [popMin] at h
      cases hxs : popMin xs with
      | none => rw [hxs] at h; simp at h
      | some p =>
          rw [hxs] at h
          rcases p with ⟨a, b⟩
          dsimp only at h
          split at h <;> simp at h

/-- Every element remaining after (and including) a `popMin` is
key-greater-or-equal to the popped one: the heap pops a lexicographic
minimum. -/
theorem popMin_minimal :
    ∀ (q : List ScheduledEvent) (m : ScheduledEvent)
      (rest : List ScheduledEvent), popMin q = some (m, rest) →
      ∀ y ∈ q, keyLe (schedKey m) (schedKey y) = true := by
  intro q
  induction q with
  | nil => intro m rest h; simp [popMin] at h
  | cons x xs ih =>
      intro m rest h y hy
      rw [popMin] at h
      cases hxs : popMin xs with
      | none =>
          rw [hxs] at h
          have hnil := popMin_eq_none hxs
          subst hnil
          simp only [Option.some.injEq, Prod.mk.injEq] at h
          obtain ⟨hm, -⟩ := h
          subst hm
          rcases List.mem_singleton.mp hy with rfl
          exact keyLe_refl _
      | some p =>
          rcases p with ⟨m', rest'⟩
          rw [hxs] at h
          dsimp only at h
          by_cases hk : keyLe (schedKey x) (schedKey m') = true
          · rw [if_pos hk] at h
            simp only [Option.some.injEq, Prod.mk.injEq] at h
            obtain ⟨hm, -⟩ := h
            subst hm
            rcases List.mem_cons.mp hy with rfl | hmem
            · exact keyLe_refl _
            · exact keyLe_trans hk (ih m' rest' hxs y hmem)
          · rw [if_neg hk] at h
            simp only [Option.some.injEq, Prod.mk.injEq] at h
            obtain ⟨hm, -⟩ := h
            subst hm
            rcases List.mem_cons.mp hy with rfl | hmem
            · exact keyLe_of_not hk
            · exact ih m' rest' hxs y hmem

end SchedulerOrder

open Proto in
/-- C2 (amended): the scheduler pops a lexicographic minimum of the
queue — whenever the pop yields `m`, every event still queued (hence the
next pop, when no smaller event is pushed in between) has a
`(phase, reactor_distance, serial)` key lexicographically ≥ `m`'s — and
`push_event` assigns the strictly monotonic serial `serial + 1` and
appends at the back, so ties within equal `(phase, distance)` break
FIFO.  (As stated the claim is false: a handler may push a lower-phase
event between two consecutive pops; see the counterexample.) -/
theorem c2_scheduler_order_amended (q : List ScheduledEvent)
    (m : ScheduledEvent) (rest : List ScheduledEvent) (e : GameEngine)
    (ev : GameEvent) (ph : Nat) (r : Option Nat)
    (h : popMin q = some (m, rest)) :
    (∀ y ∈ q, keyLe (schedKey m) (schedKey y) = true) ∧
    (pushEvent e ev ph r).serial = e.serial + 1 ∧
    (∃ d, (pushEvent e ev ph r).queue =
      e.queue ++ [⟨ph, d, e.serial + 1, ev⟩]) :=
  ⟨popMin_minimal q m rest h, rfl, ⟨_, rfl⟩⟩

open Proto in
/-- Witness for the amended C2 on a concrete three-element queue and the
solo engine. -/
theorem c2_scheduler_order_amended_witness :
    (∀ y ∈ exQueue,
      keyLe (schedKey ⟨0, 0, 4, .turnStart 0⟩) (schedKey y) = true) ∧
    (pushEvent exSoloEngine (.turnStart 0) 0 none).serial =
      exSoloEngine.serial + 1 ∧
    (∃ d, (pushEvent exSoloEngine (.turnStart 0) 0 none).queue =
      exSoloEngine.queue ++ [⟨0, d, exSoloEngine.serial + 1, .turnStart 0⟩]) :=
  c2_scheduler_order_amended exQueue ⟨0, 0, 4, .turnStart 0⟩
    [⟨30, 0, 3, .landing 0 6⟩, ⟨20, 1, 5, .rollAndMainMove 0⟩]
    exSoloEngine (.turnStart 0) 0 none (by decide)

open Proto in
/-- C3 counterexample: with the single-racer roster `["Centaur"]` the
race is still not over after 600 turns (the second-finisher condition
that sets `race_over` can never be met), so `run_race` has not returned
within any `max_turns` budget of 600 or less — in particular within the
batch default of 500. -/
theorem c3_counterexample :
    (runRace diceFive 600 50 exSoloEngine).raceOver = false :=
  (soloInv_runRace soloInv_buildSolo diceFive 600 50).2.1

open Proto in
/-- C3 (amended): `run_race` loops while `race_over` is false, and
`race_over` is set only when a second racer finishes; with the
single-racer roster `["Centaur"]` it is never set — for every dice
stream and every turn and event budget — so `run_race` never returns.
The engine itself enforces no `max_turns` bound (that cap belongs to the
embedder). -/
theorem c3_termination_amended (dice : Nat → Nat)
    (turnFuel eventFuel : Nat) :
    (runRace dice turnFuel eventFuel (buildEngine [.Centaur])).raceOver =
      false :=
  (soloInv_runRace soloInv_buildSolo dice turnFuel eventFuel).2.1

open Pkg in
/-- C7 counterexample: a `SimultaneousWarpCmd` that warps racer 0 to tile
5 and (in the same batch) to tile 7 commits both, but during the first
landing hook the second committed warp is no longer visible (the
finalize pass re-assigned the racer to tile 5), so not every landing
hook observes every committed warp. -/
theorem c7_counterexample :
    (handleSimultaneousWarpCmd exSimEngine exSimEvt).actions =
      [.preWarp 0 0 5, .preWarp 0 0 7,
       .warpLog 0 5, .onLand 5 0 [5], .postWarp 0 0 5,
       .warpLog 0 7, .onLand 7 0 [7], .postWarp 0 0 7] ∧
    onLandSeesAllCommits
      (handleSimultaneousWarpCmd exSimEngine exSimEvt).actions
      (gatherPlannedWarps exSimEngine exSimEvt).2 = false := by
  decide

section SimWarp

open Pkg

theorem getD_set_ne {α : Type} (l : List α) (i j : Nat) (a d : α)
    (h : i ≠ j) : (l.set i a).getD j d = l.getD j d := by
  simp [List.getD, List.getElem?_set_ne, h]

theorem set_getD_self {α : Type} (l : List α) (i : Nat) (d : α)
    (h : i < l.length) : l.set i (l.getD i d) = l := by
  rw [List.getD_eq_getElem l d h]
  ext1 j
  rw [List.getElem?_set]
  split
  · next he => subst he; simp [List.getElem?_eq_getElem h]
  · rfl

theorem getD_map_position (l : List RacerState) (i : Nat)
    (h : i < l.length) :
    (l.map (fun r => r.position)).getD i 0 = (l.getD i dummyRacer).position := by
  simp [List.getD, List.getElem?_map, List.getElem?_eq_getElem h]

theorem record_racers (e : Engine) (a : Action) :
    (record e a).racers = e.racers := rfl

theorem record_board (e : Engine) (a : Action) :
    (record e a).board = e.board := rfl

theorem record_actions (e : Engine) (a : Action) :
    (record e a).actions = e.actions ++ [a] := rfl

theorem setPosition_actions (e : Engine) (i : Nat) (t : Int) :
    (setPosition e i t).actions = e.actions := rfl

theorem setPosition_length (e : Engine) (i : Nat) (t : Int) :
    (setPosition e i t).racers.length = e.racers.length := by
  simp [setPosition]

theorem getRacer_setPosition_self (e : Engine) (i : Nat) (t : Int)
    (h : i < e.racers.length) :
    getRacer (setPosition e i t) i = { getRacer e i with position := t } := by
  unfold getRacer setPosition
  exact getD_set_self _ _ _ _ h

theorem getRacer_setPosition_other (e : Engine) (i j : Nat) (t : Int)
    (h : i ≠ j) : getRacer (setPosition e i t) j = getRacer e j := by
  unfold getRacer setPosition
  exact getD_set_ne _ _ _ _ _ h

theorem setPosition_fixed (e : Engine) (i : Nat) (t : Int)
    (h : i < e.racers.length) (ht : (getRacer e i).position = t) :
    setPosition e i t = e := by
  unfold setPosition
  rw [← ht]
  show { e with racers := e.racers.set i (getRacer e i) } = e
  unfold getRacer
  rw [set_getD_self _ _ _ h]

theorem resolveWarpDestination_racers (e : Engine) (w : WarpCmdEvent) :
    (resolveWarpDestination e w).2.racers = e.racers := by
  unfold resolveWarpDestination
  dsimp only
  split <;> rfl

theorem checkFinish_racersLength (e : Engine) (i : Nat) :
    (checkFinish e i).2.racers.length = e.racers.length := by
  unfold checkFinish
  dsimp only
  split
  · split <;> simp
  · rfl

theorem checkFinish_actions (e : Engine) (i : Nat) :
    (checkFinish e i).2.actions = e.actions := by
  unfold checkFinish
  dsimp only
  split
  · split <;> rfl
  · rfl

theorem checkFinish_position (e : Engine) (i j : Nat) :
    (getRacer (checkFinish e i).2 j).position = (getRacer e j).position := by
  unfold checkFinish
  dsimp only
  have key : ∀ rcs : List RacerState,
      rcs = e.racers.set i { getRacer e i with
        finishPosition := some ((e.racers.filter (fun x => x.finished)).length + 1) } →
      (rcs.getD j dummyRacer).position = (getRacer e j).position := by
    intro rcs hrcs
    subst hrcs
    rcases eq_or_ne i j with rfl | hij
    · rcases Nat.lt_or_ge i e.racers.length with hi | hi
      · rw [getD_set_self _ _ _ _ hi]
      · unfold getRacer
        rw [List.set_eq_of_length_le hi]
    · rw [getD_set_ne _ _ _ _ _ hij]
      rfl
  split
  · split
    · exact key _ rfl
    · exact key _ rfl
  · rfl

theorem finalize_step (planned : List (WarpCmdEvent × Int × Int))
    (q : WarpCmdEvent × Int × Int) (acc : Engine)
    (hq : (getRacer acc q.1.targetRacerIdx).position = q.2.2)
    (hvq : q.1.targetRacerIdx < acc.racers.length)
    (hposall : ∀ pw ∈ planned,
      (getRacer acc pw.1.targetRacerIdx).position = pw.2.2)
    (hvall : ∀ pw ∈ planned, pw.1.targetRacerIdx < acc.racers.length)
    (hgood : ∀ a ∈ acc.actions, onLandEntryOk planned a = true) :
    (finalizeCommittedWarp acc q.1 q.2.1 q.2.2).racers.length =
      acc.racers.length ∧
    (∀ pw ∈ planned,
      (getRacer (finalizeCommittedWarp acc q.1 q.2.1 q.2.2)
        pw.1.targetRacerIdx).position = pw.2.2) ∧
    (∀ a ∈ (finalizeCommittedWarp acc q.1 q.2.1 q.2.2).actions,
      onLandEntryOk planned a = true) := by
  unfold finalizeCommittedWarp
  dsimp only
  have hset : setPosition (record acc (.warpLog q.1.targetRacerIdx q.2.2))
      q.1.targetRacerIdx q.2.2 = record acc (.warpLog q.1.targetRacerIdx q.2.2) := by
    refine setPosition_fixed _ _ _ ?_ ?_
    · rw [record_racers]; exact hvq
    · show (getRacer acc q.1.targetRacerIdx).position = q.2.2
      exact hq
  rw [hset]
  have hgood1 : ∀ a ∈ (record acc
      (.warpLog q.1.targetRacerIdx q.2.2)).actions,
      onLandEntryOk planned a = true := by
    intro a ha
    rw [record_actions] at ha
    rcases List.mem_append.mp ha with ha | ha
    · exact hgood a ha
    · rcases List.mem_singleton.mp ha with rfl
      rfl
  have hposcf : ∀ pw ∈ planned,
      (getRacer (checkFinish (record acc (.warpLog q.1.targetRacerIdx q.2.2))
        q.1.targetRacerIdx).2 pw.1.targetRacerIdx).position = pw.2.2 := by
    intro pw hpw
    rw [checkFinish_position]
    exact hposall pw hpw
  have hlencf : (checkFinish (record acc (.warpLog q.1.targetRacerIdx q.2.2))
      q.1.targetRacerIdx).2.racers.length = acc.racers.length := by
    rw [checkFinish_racersLength, record_racers]
  have hgoodcf : ∀ a ∈ (checkFinish (record acc
      (.warpLog q.1.targetRacerIdx q.2.2)) q.1.targetRacerIdx).2.actions,
      onLandEntryOk planned a = true := by
    rw [checkFinish_actions]
    exact hgood1
  split
  · exact ⟨hlencf, hposcf, hgoodcf⟩
  · refine ⟨?_, ?_, ?_⟩
    · rw [record_racers, record_racers, hlencf]
    · intro pw hpw
      show (getRacer (checkFinish _ _).2 pw.1.targetRacerIdx).position = pw.2.2
      exact hposcf pw hpw
    · intro a ha
      rw [record_actions, record_actions] at ha
      rcases List.mem_append.mp ha with ha | ha
      · rcases List.mem_append.mp ha with ha | ha
        · exact hgoodcf a ha
        · rcases List.mem_singleton.mp ha with rfl
          show onLandEntryOk planned (.onLand _ _ _) = true
          unfold onLandEntryOk
          rw [List.all_eq_true]
          intro pw hpw
          have hvpw : pw.1.targetRacerIdx <
              (checkFinish (record acc (.warpLog q.1.targetRacerIdx q.2.2))
                q.1.targetRacerIdx).2.racers.length := by
            rw [hlencf]; exact hvall pw hpw
          rw [getD_map_position _ _ hvpw]
          have := hposcf pw hpw
          unfold getRacer at this
          rw [this]
          exact beq_self_eq_true _
      · rcases List.mem_singleton.mp ha with rfl
        rfl

theorem finalize_fold (planned : List (WarpCmdEvent × Int × Int)) :
    ∀ (qs : List (WarpCmdEvent × Int × Int)) (acc : Engine),
      (∀ q ∈ qs, q ∈ planned) →
      (∀ pw ∈ planned,
        (getRacer acc pw.1.targetRacerIdx).position = pw.2.2) →
      (∀ pw ∈ planned, pw.1.targetRacerIdx < acc.racers.length) →
      (∀ a ∈ acc.actions, onLandEntryOk planned a = true) →
      ∀ a ∈ (qs.foldl (fun acc q =>
          finalizeCommittedWarp acc q.1 q.2.1 q.2.2) acc).actions,
        onLandEntryOk planned a = true := by
  intro qs
  induction qs with
  | nil => intro acc _ _ _ hgood a ha; exact hgood a ha
  | cons q rest ih =>
      intro acc hsub hposall hvall hgood a ha
      have hq := hposall q (hsub q (List.mem_cons_self q rest))
      have hvq := hvall q (hsub q (List.mem_cons_self q rest))
      obtain ⟨hlen, hpos, hgood'⟩ :=
        finalize_step planned q acc hq hvq hposall hvall hgood
      exact ih (finalizeCommittedWarp acc q.1 q.2.1 q.2.2)
        (fun x hx => hsub x (List.mem_cons_of_mem q hx)) hpos
        (fun pw hpw => by rw [hlen]; exact hvall pw hpw) hgood' a ha

theorem commit_fold_length :
    ∀ (ps : List (WarpCmdEvent × Int × Int)) (acc : Engine),
      (ps.foldl (fun a q => setPosition a q.1.targetRacerIdx q.2.2)
        acc).racers.length = acc.racers.length := by
  intro ps
  induction ps with
  | nil => intro acc; rfl
  | cons q rest ih =>
      intro acc
      rw [List.foldl_cons, ih, setPosition_length]

theorem commit_fold_actions :
    ∀ (ps : List (WarpCmdEvent × Int × Int)) (acc : Engine),
      (ps.foldl (fun a q => setPosition a q.1.targetRacerIdx q.2.2)
        acc).actions = acc.actions := by
  intro ps
  induction ps with
  | nil => intro acc; rfl
  | cons q rest ih =>
      intro acc
      rw [List.foldl_cons, ih, setPosition_actions]

theorem commit_fold_untouched :
    ∀ (ps : List (WarpCmdEvent × Int × Int)) (acc : Engine) (i : Nat),
      i ∉ ps.map (fun pw => pw.1.targetRacerIdx) →
      getRacer (ps.foldl (fun a q => setPosition a q.1.targetRacerIdx q.2.2)
        acc) i = getRacer acc i := by
  intro ps
  induction ps with
  | nil => intro acc i _; rfl
  | cons q rest ih =>
      intro acc i hi
      rw [List.map_cons] at hi
      have h1 : q.1.targetRacerIdx ≠ i := fun he =>
        hi (by rw [he]; exact List.mem_cons_self _ _)
      rw [List.foldl_cons,
        ih _ i (fun hm => hi (List.mem_cons_of_mem _ hm)),
        getRacer_setPosition_other _ _ _ _ h1]

theorem commit_fold_spec :
    ∀ (ps : List (WarpCmdEvent × Int × Int)) (acc : Engine),
      (ps.map (fun pw => pw.1.targetRacerIdx)).Nodup →
      (∀ pw ∈ ps, pw.1.targetRacerIdx < acc.racers.length) →
      ∀ pw ∈ ps,
        (getRacer (ps.foldl (fun a q =>
          setPosition a q.1.targetRacerIdx q.2.2) acc)
          pw.1.targetRacerIdx).position = pw.2.2 := by
  intro ps
  induction ps with
  | nil => intro acc _ _ pw hpw; exact absurd hpw (List.not_mem_nil pw)
  | cons q rest ih =>
      intro acc hnd hval pw hpw
      rw [List.map_cons, List.nodup_cons] at hnd
      rw [List.foldl_cons]
      rcases List.mem_cons.mp hpw with rfl | hmem
      · rw [commit_fold_untouched rest _ _ hnd.1,
          getRacer_setPosition_self _ _ _
            (hval pw (List.mem_cons_self pw rest))]
      · exact ih (setPosition acc q.1.targetRacerIdx q.2.2) hnd.2
          (fun x hx => by
            rw [setPosition_length]
            exact hval x (List.mem_cons_of_mem q hx)) pw hmem

theorem gatherAux_racers (evt : SimultaneousWarpCmdEvent) :
    ∀ (ws : List (Nat × Int)) (eng : Engine),
      (gatherAux evt eng ws).1.racers = eng.racers := by
  intro ws
  induction ws with
  | nil => intro eng; rfl
  | cons p rest ih =>
      intro eng
      rw [gatherAux]
      dsimp only
      split
      · exact ih eng
      · split
        · exact ih eng
        · split
          · rw [ih, resolveWarpDestination_racers, record_racers]
          · dsimp only
            rw [ih, resolveWarpDestination_racers, record_racers]

theorem gatherAux_actions_ok (evt : SimultaneousWarpCmdEvent)
    (P : List (WarpCmdEvent × Int × Int)) :
    ∀ (ws : List (Nat × Int)) (eng : Engine),
      (∀ a ∈ eng.actions, onLandEntryOk P a = true) →
      ∀ a ∈ (gatherAux evt eng ws).1.actions, onLandEntryOk P a = true := by
  intro ws
  induction ws with
  | nil => intro eng h a ha; exact h a ha
  | cons p rest ih =>
      intro eng h
      have hres : ∀ (e1 : Engine) (w : WarpCmdEvent),
          (∀ a ∈ e1.actions, onLandEntryOk P a = true) →
          ∀ a ∈ (resolveWarpDestination e1 w).2.actions,
            onLandEntryOk P a = true := by
        intro e1 w h1
        unfold resolveWarpDestination
        dsimp only
        split
        · intro a ha
          rw [record_actions] at ha
          rcases List.mem_append.mp ha with ha | ha
          · exact h1 a ha
          · rcases List.mem_singleton.mp ha with rfl
            rfl
        · exact h1
      have hrec : ∀ a ∈ (record eng
          (.preWarp p.1 (getRacer eng p.1).position p.2)).actions,
          onLandEntryOk P a = true := by
        intro a ha
        rw [record_actions] at ha
        rcases List.mem_append.mp ha with ha | ha
        · exact h a ha
        · rcases List.mem_singleton.mp ha with rfl
          rfl
      rw [gatherAux]
      dsimp only
      split
      · exact ih eng h
      · split
        · exact ih eng h
        · split
          · exact ih _ (hres _ _ hrec)
          · dsimp only
            exact ih _ (hres _ _ hrec)

theorem gatherAux_valid (evt : SimultaneousWarpCmdEvent) :
    ∀ (ws : List (Nat × Int)) (eng : Engine),
      ∀ pw ∈ (gatherAux evt eng ws).2,
        pw.1.targetRacerIdx < eng.racers.length := by
  intro ws
  induction ws with
  | nil => intro eng pw hpw; exact absurd hpw (List.not_mem_nil pw)
  | cons p rest ih =>
      intro eng pw hpw
      rw [gatherAux] at hpw
      dsimp only at hpw
      split at hpw
      · exact ih eng pw hpw
      · next hactive =>
          split at hpw
          · exact ih eng pw hpw
          · split at hpw
            · have := ih _ pw hpw
              rwa [resolveWarpDestination_racers, record_racers] at this
            · dsimp only at hpw
              rcases List.mem_cons.mp hpw with rfl | hmem
              · show p.1 < eng.racers.length
                by_contra hge
                push_neg at hge
                have hdum : getRacer eng p.1 = dummyRacer := by
                  unfold getRacer
                  exact List.getD_eq_default _ _ (by simpa using hge)
                rw [hdum] at hactive
                exact hactive (by decide)
              · have := ih _ pw hmem
                rwa [resolveWarpDestination_racers, record_racers] at this

theorem gatherAux_sublist (evt : SimultaneousWarpCmdEvent) :
    ∀ (ws : List (Nat × Int)) (eng : Engine),
      ((gatherAux evt eng ws).2.map (fun pw => pw.1.targetRacerIdx)).Sublist
        (ws.map Prod.fst) := by
  intro ws
  induction ws with
  | nil => intro eng; simp [gatherAux]
  | cons p rest ih =>
      intro eng
      rw [gatherAux]
      dsimp only
      split
      · exact (ih eng).cons p.1
      · split
        · exact (ih eng).cons p.1
        · split
          · exact (ih _).cons p.1
          · dsimp only
            rw [List.map_cons]
            exact (ih _).cons₂ p.1

end SimWarp

open Pkg in
/-- C7 (amended): handling a `SimultaneousWarpCmd` resolves each pair
through `on_approach`, dropping inactive and same-tile entries before
`PreWarp` and resolution bounce-backs after their `PreWarp`; provided
the warp list targets pairwise-distinct racers, all resolved positions
are committed before any landing hook or `PostWarp` runs, so every
landing hook recorded during finalization observes every committed warp
already applied. -/
theorem c7_sim_warp_amended (e : Engine) (evt : SimultaneousWarpCmdEvent)
    (hnodup : (evt.warps.map Prod.fst).Nodup) (hact : e.actions = []) :
    onLandSeesAllCommits (handleSimultaneousWarpCmd e evt).actions
      (gatherPlannedWarps e evt).2 = true := by
  unfold onLandSeesAllCommits
  rw [List.all_eq_true]
  have hbase : ∀ a ∈ e.actions,
      onLandEntryOk (gatherPlannedWarps e evt).2 a = true := by
    rw [hact]
    intro a ha
    exact absurd ha (List.not_mem_nil a)
  have hplanOk := gatherAux_actions_ok evt (gatherPlannedWarps e evt).2
    evt.warps e hbase
  have hplanR : (gatherPlannedWarps e evt).1.racers = e.racers :=
    gatherAux_racers evt evt.warps e
  have hvalid : ∀ pw ∈ (gatherPlannedWarps e evt).2,
      pw.1.targetRacerIdx < e.racers.length :=
    gatherAux_valid evt evt.warps e
  have hnodupP : ((gatherPlannedWarps e evt).2.map
      (fun pw => pw.1.targetRacerIdx)).Nodup :=
    (gatherAux_sublist evt evt.warps e).nodup hnodup
  unfold handleSimultaneousWarpCmd
  dsimp only
  split
  · exact hplanOk
  · have hok1 : ∀ a ∈ (if evt.emitAbilityTriggered = .afterResolution then
        record (gatherPlannedWarps e evt).1
          (.abilityTriggeredPush evt.source)
      else (gatherPlannedWarps e evt).1).actions,
        onLandEntryOk (gatherPlannedWarps e evt).2 a = true := by
      split
      · intro a ha
        rw [record_actions] at ha
        rcases List.mem_append.mp ha with ha | ha
        · exact hplanOk a ha
        · rcases List.mem_singleton.mp ha with rfl
          rfl
      · exact hplanOk
    have hr1 : (if evt.emitAbilityTriggered = .afterResolution then
        record (gatherPlannedWarps e evt).1
          (.abilityTriggeredPush evt.source)
      else (gatherPlannedWarps e evt).1).racers = e.racers := by
      split
      · rw [record_racers, hplanR]
      · exact hplanR
    refine finalize_fold (gatherPlannedWarps e evt).2
      (gatherPlannedWarps e evt).2 _ (fun q hq => hq) ?_ ?_ ?_
    · intro pw hpw
      refine commit_fold_spec (gatherPlannedWarps e evt).2 _ hnodupP ?_ pw hpw
      intro x hx
      rw [hr1]
      exact hvalid x hx
    · intro pw hpw
      rw [commit_fold_length, hr1]
      exact hvalid pw hpw
    · intro a ha
      rw [commit_fold_actions] at ha
      exact hok1 a ha

open Pkg in
/-- Witness for the amended C7: two distinct racers warped to tiles 5
and 7 in one batch. -/
theorem c7_sim_warp_amended_witness :
    onLandSeesAllCommits
      (handleSimultaneousWarpCmd exSim2Engine exSimEvt2).actions
      (gatherPlannedWarps exSim2Engine exSimEvt2).2 = true :=
  c7_sim_warp_amended exSim2Engine exSimEvt2 (by decide) rfl

open Pkg in
/-- C4 (amended): a `MoveCmd` with `distance == 0` is dropped before any
hook runs, unconditionally; and an active racer's move whose resolved
end tile equals its start tile returns right after the `PreMove`
publication, with no movement and no `AbilityTriggered`, regardless of
the `after_resolution` discipline and of the
`count_0_moves_for_ability_triggered` rules flag (that flag is never
consulted on this path). -/
theorem c4_zero_move_amended (e : Engine) (evt : MoveCmdEvent) :
    (evt.distance = 0 → handleMoveCmd e evt = e) ∧
    ((getRacer e evt.targetRacerIdx).active = true →
      evt.distance ≠ 0 →
      0 ≤ e.board.resolvePos
        ((getRacer e evt.targetRacerIdx).position + evt.distance)
        evt.targetRacerIdx →
      e.board.resolvePos
        ((getRacer e evt.targetRacerIdx).position + evt.distance)
        evt.targetRacerIdx = (getRacer e evt.targetRacerIdx).position →
      handleMoveCmd e evt =
        record e (.preMove evt.targetRacerIdx
          (getRacer e evt.targetRacerIdx).position evt.distance)) := by
  constructor
  · intro h0
    unfold handleMoveCmd
    dsimp only
    split
    · rfl
    · rfl
  · intro hactv hd hres0 hres
    unfold handleMoveCmd
    dsimp only
    rw [if_neg (by simp [hactv]), if_neg hd]
    simp only [record_board]
    rw [if_neg (not_lt.mpr hres0)]
    dsimp only
    rw [if_pos hres]

open Pkg in
/-- Witness for the amended C4: the zero-distance command on the
flag-set engine, and the distance-1 command on the bouncing board. -/
theorem c4_zero_move_amended_witness :
    handleMoveCmd exMoveEngine exZeroMoveEvt = exMoveEngine ∧
    handleMoveCmd exBounceEngine exOneMoveEvt =
      record exBounceEngine (.preMove 0
        (getRacer exBounceEngine 0).position exOneMoveEvt.distance) :=
  ⟨(c4_zero_move_amended exMoveEngine exZeroMoveEvt).1 rfl,
   (c4_zero_move_amended exBounceEngine exOneMoveEvt).2 (by decide)
     (by decide) (by decide) (by decide)⟩

open Pkg in
/-- C8: applying `TripCmd` to an inactive or already-tripped racer
changes no state and emits no event (in particular no
`AbilityTriggered`); otherwise it sets `tripped`, logs, and emits
`AbilityTriggered` per the event's `emit_ability_triggered` discipline. -/
theorem c8_trip_idempotent (e : Engine) (evt : TripCmdEvent) :
    (((getRacer e evt.targetRacerIdx).active = false ∨
      (getRacer e evt.targetRacerIdx).tripped = true) →
      handleTripCmd e evt = e) ∧
    ((getRacer e evt.targetRacerIdx).active = true →
      (getRacer e evt.targetRacerIdx).tripped = false →
      (handleTripCmd e evt).racers =
        e.racers.set evt.targetRacerIdx
          { getRacer e evt.targetRacerIdx with tripped := true } ∧
      (handleTripCmd e evt).actions =
        e.actions ++ [.tripLog evt.targetRacerIdx] ++
          (if evt.emitAbilityTriggered ≠ .never then
            [.abilityTriggeredPush evt.source] else [])) := by
  constructor
  · intro h
    unfold handleTripCmd
    dsimp only
    rcases h with h | h
    · rw [if_pos (by simp [h])]
    · rw [if_pos (by simp [h])]
  · intro h1 h2
    unfold handleTripCmd
    dsimp only
    rw [if_neg (by simp [h1, h2])]
    constructor
    · split <;> rfl
    · split
      · next hemit => simp [record, hemit]
      · next hemit => simp [record, hemit]

open Pkg in
/-- Witness for C8: the already-tripped racer is untouched with nothing
emitted; the fresh racer is tripped and `AbilityTriggered` follows the
`after_resolution` discipline. -/
theorem c8_trip_idempotent_witness :
    handleTripCmd exTripEngine exTripEvtTripped = exTripEngine ∧
    ((handleTripCmd exTripEngine exTripEvtFresh).racers =
      exTripEngine.racers.set 0
        { getRacer exTripEngine 0 with tripped := true } ∧
     (handleTripCmd exTripEngine exTripEvtFresh).actions =
      exTripEngine.actions ++ [.tripLog 0] ++
        (if exTripEvtFresh.emitAbilityTriggered ≠ .never then
          [.abilityTriggeredPush exTripEvtFresh.source] else [])) :=
  ⟨(c8_trip_idempotent exTripEngine exTripEvtTripped).1 (Or.inr (by decide)),
   (c8_trip_idempotent exTripEngine exTripEvtFresh).2 (by decide) (by decide)⟩

open LoopDet in
/-- C9: on a dispatch whose `(event_type, target_racer, source)`
signature has already occurred more than `max_event_frequency` times
within the last `event_window_size` serials, `check_for_loops` reports
the event as skipped, with a reason for the WARN log; being a total
function it never raises, and the dispatch loop drops the event and
continues (the skip branch of `Proto.processEventsForTurn`). -/
theorem c9_event_frequency_skip (st : GameState) (sched : ScheduledEvent)
    (h : ((lookupD st.loopDetection.eventFrequency
        (getEventSignature sched.event) []).filter
          (fun s => s + st.loopDetection.eventWindowSize ≥ st.serial)).length >
        st.loopDetection.maxEventFrequency) :
    (checkForLoops st sched).1.1 = true ∧
    (checkForLoops st sched).1.2 ≠ none := by
  unfold checkForLoops
  dsimp only
  split
  · exact ⟨rfl, by simp⟩
  · split
    · exact ⟨rfl, by simp⟩
    · split
      · exact ⟨rfl, by simp⟩
      · next hfreq =>
          exfalso
          have hp : st.serial ≤ st.serial + st.loopDetection.eventWindowSize :=
            Nat.le_add_right _ _
          simp only [ge_iff_le] at h
          simp [List.filter_append, hp] at hfreq
          omega

open LoopDet in
/-- Witness for C9: the eleventh in-window occurrence of a
`MoveCmdEvent` signature is skipped with a reason. -/
theorem c9_event_frequency_skip_witness :
    (checkForLoops exLoopGameState exLoopSched).1.1 = true ∧
    (checkForLoops exLoopGameState exLoopSched).1.2 ≠ none :=
  c9_event_frequency_skip exLoopGameState exLoopSched (by decide)

section StateHash

theorem toFinset_eq_of_perm {l l' : List String} (h : l.Perm l') :
    l.toFinset = l'.toFinset := by
  ext a
  simp [List.mem_toFinset, h.mem_iff]

theorem forall₂_map_eq {α β : Type} (f : α → β) (R : α → α → Prop)
    (hf : ∀ a b, R a b → f a = f b) :
    ∀ {l l' : List α}, List.Forall₂ R l l' → l.map f = l'.map f := by
  intro l l' h
  induction h with
  | nil => rfl
  | cons hr _ ih => simp only [List.map_cons, hf _ _ hr, ih]

end StateHash

open Pkg in
/-- C10: `get_state_hash` is insensitive to internal ordering — two game
states that differ only in the order of each racer's attached modifier
list, the insertion order of each racer's ability map, or the order of
each tile's dynamic space modifiers hash identically (the hashed
canonical value is built from frozensets). -/
theorem c10_state_hash_order_insensitive (s1 s2 : GameState)
    (hracers : List.Forall₂ racerOrderEquiv s1.racers s2.racers)
    (hboard : List.Forall₂ tileOrderEquiv s1.board.dynamicModifiers
      s2.board.dynamicModifiers) :
    s1.getStateHash = s2.getStateHash := by
  unfold GameState.getStateHash
  have ha := forall₂_map_eq
    (fun r : RacerState =>
      ({ idx := r.idx, position := r.position, tripped := r.tripped,
         finishPosition := r.finishPosition, eliminated := r.eliminated,
         victoryPoints := r.victoryPoints,
         abilities := r.activeAbilities.toFinset,
         modifierNames := (r.modifiers.map (fun m => m.name)).toFinset }
        : RacerHashData))
    racerOrderEquiv
    (fun a b hab => by
      obtain ⟨h1, h2, h3, h4, h5, h6, h7, h8⟩ := hab
      dsimp only
      rw [h1, h2, h3, h4, h5, h6, toFinset_eq_of_perm h7,
        toFinset_eq_of_perm h8])
    hracers
  have hb := forall₂_map_eq
    (fun p : Nat × List ModifierInst =>
      (p.1, (p.2.map (fun m => m.name)).toFinset))
    tileOrderEquiv
    (fun p q hpq => by
      obtain ⟨h1, h2⟩ := hpq
      dsimp only
      rw [h1, toFinset_eq_of_perm h2])
    hboard
  rw [ha, hb]

open Pkg in
/-- Witness for C10: the concrete state pair differing only in list
orders hashes identically. -/
theorem c10_state_hash_order_insensitive_witness :
    exHashState1.getStateHash = exHashState2.getStateHash :=
  c10_state_hash_order_insensitive exHashState1 exHashState2
    (List.Forall₂.cons
      ⟨rfl, rfl, rfl, rfl, rfl, rfl, by decide, by decide⟩
      List.Forall₂.nil)
    (List.Forall₂.cons ⟨rfl, by decide⟩ List.Forall₂.nil)

end MagicalAthlete
